import Mathlib

/-!
Verification of the QA-assist agent framework's response-parsing, caching and
action-extraction core against its specification.

The Python sources are shallowly embedded over values of type List Char
(Python str) and JVal (Python JSON-serializable values).  Python dynamic
values that flow through the parsing pipeline are modelled by JVal as well;
places where the Python code would raise are modelled with Except / Option.
-/

set_option maxHeartbeats 1000000
set_option maxRecDepth 8000

/-! ### Python string primitives, modelled over List Char -/

/-- Index of the first occurrence of pat in hay at or after offset i,
    scanning left to right (helper for the model of Python str.find). -/
def findSubAux : List Char → List Char → Nat → Option Nat
  | [], pat, i => if pat.isEmpty then some i else none
  | c :: t, pat, i =>
      if pat.isPrefixOf (c :: t) then some i else findSubAux t pat (i + 1)

/-- Model of Python hay.find(pat): index of the first occurrence, or -1. -/
def pyFind (hay pat : List Char) : Int :=
  match findSubAux hay pat 0 with
  | some n => (n : Int)
  | none => -1

/-- Model of Python hay.find(pat, start) with a non-negative start. -/
def pyFindFrom (hay pat : List Char) (start : Nat) : Int :=
  match findSubAux (hay.drop start) pat 0 with
  | some n => ((start + n : Nat) : Int)
  | none => -1

/-- Model of the Python substring test pat in hay. -/
def pyIn (pat hay : List Char) : Bool :=
  (findSubAux hay pat 0).isSome

/-- Model of Python hay.rfind(pat): index of the last occurrence, or -1. -/
def pyRFind (hay pat : List Char) : Int :=
  match ((List.range (hay.length + 1)).filter
      (fun i => pat.isPrefixOf (hay.drop i))).getLast? with
  | some n => (n : Int)
  | none => -1

/-- Model of Python s.replace(pat, rep) for a non-empty pat: left-to-right,
    non-overlapping.  The sources never call replace with an empty pattern,
    so that case is mapped to the identity. -/
def pyReplaceAux (pat rep : List Char) : Nat → List Char → List Char
  | _, [] => []
  | 0, s => s
  | fuel + 1, c :: t =>
      if pat ≠ [] ∧ pat.isPrefixOf (c :: t) then
        rep ++ pyReplaceAux pat rep fuel ((c :: t).drop pat.length)
      else
        c :: pyReplaceAux pat rep fuel t

/-- Model of Python s.replace(pat, rep); the fuel, set to the input length,
    always suffices because every step consumes at least one character. -/
def pyReplace (pat rep s : List Char) : List Char :=
  pyReplaceAux pat rep s.length s

/-- Characters treated as whitespace by Python str.strip(). -/
def isPySpace (c : Char) : Bool :=
  c = ' ' || c = '\t' || c = '\n' || c = '\r' || c = Char.ofNat 11 || c = Char.ofNat 12

/-- Model of Python s.strip(). -/
def pyStrip (s : List Char) : List Char :=
  ((s.dropWhile isPySpace).reverse.dropWhile isPySpace).reverse

/-- Model of Python s.split(sep) for a single-character separator. -/
def pySplitChar (sep : Char) : List Char → List (List Char)
  | [] => [[]]
  | c :: t =>
      let rest := pySplitChar sep t
      if c = sep then [] :: rest
      else
        match rest with
        | [] => [[c]]
        | r :: rs => (c :: r) :: rs

/-- Model of Python s.lower(), restricted to the ASCII range the sources use. -/
def pyLower (s : List Char) : List Char := s.map Char.toLower

/-- Model of a Python slice bound: negative values count from the end,
    and the result is clamped to the interval from 0 to the length. -/
def pySliceBound (n : Nat) (i : Int) : Nat :=
  if i < 0 then ((n : Int) + i).toNat else min i.toNat n

/-- Model of Python s[a:b] with full slice semantics (negative indices,
    clamping). -/
def pySlice (s : List Char) (a b : Int) : List Char :=
  let lo := pySliceBound s.length a
  let hi := pySliceBound s.length b
  (s.take hi).drop lo

/-- Model of Python s[a:] for a non-negative index. -/
def pySliceFrom (s : List Char) (a : Nat) : List Char := s.drop a

/-! ### JSON-serializable Python values

JVal models the Python values that the repository serializes to and parses
from JSON: None, bool, int, str, list and dict.  Python dicts are modelled
by key/value lists in insertion order (a Python dict never holds a duplicate
key).  Non-integral JSON numbers (Python floats) are carried as their source
text in the numLit constructor; floating-point semantics itself is outside
the embedding, so the round-trip theorems restrict to the float-free
fragment. -/

inductive JVal where
  | null
  | bool (b : Bool)
  | int (n : Int)
  | numLit (cs : List Char)
  | str (s : List Char)
  | arr (xs : List JVal)
  | obj (kvs : List (List Char × JVal))

/-- Model of insertion into a Python dict: an existing key keeps its position
    and has its value updated, a new key is appended. -/
def dictInsert (kvs : List (List Char × JVal)) (k : List Char) (v : JVal) :
    List (List Char × JVal) :=
  match kvs with
  | [] => [(k, v)]
  | (k', v') :: rest =>
      if k' = k then (k', v) :: rest else (k', v') :: dictInsert rest k v

/-- Model of building a Python dict from a pair list (duplicate keys: the
    last value wins, the first position is kept). -/
def dictOfPairs (ps : List (List Char × JVal)) : List (List Char × JVal) :=
  ps.foldl (fun acc kv => dictInsert acc kv.1 kv.2) []

/-- Model of Python d.get(key, default) on a dict. -/
def dictGet (kvs : List (List Char × JVal)) (k : List Char) (dflt : JVal) : JVal :=
  match kvs with
  | [] => dflt
  | (k', v') :: rest => if k' = k then v' else dictGet rest k dflt

/-- Model of Python data.get(key, default) as the sources use it on parsed
    payloads: on a dict it looks the key up, on any other value the Python
    call would raise AttributeError, which the sources never reach on the
    paths modelled here; those cases return the default. -/
def jGet (v : JVal) (k : List Char) (dflt : JVal) : JVal :=
  match v with
  | .obj kvs => dictGet kvs k dflt
  | _ => dflt

/-- Model of Python truthiness for the values that reach the sources'
    truth tests. -/
def jTruthy : JVal → Bool
  | .null => false
  | .bool b => b
  | .int n => n != 0
  | .numLit _ => true
  | .str s => !s.isEmpty
  | .arr xs => !xs.isEmpty
  | .obj kvs => !kvs.isEmpty

/-! ### Model of json.dumps(value, indent=2, ensure_ascii=False)

This is the serializer the caches write with.  Strings escape the quote,
the backslash and control characters exactly as Python's ESCAPE_DCT does
with ensure_ascii=False; containers are pretty-printed with a two-space
indent, item separator comma-newline and key separator colon-space. -/

/-- Lowercase hexadecimal digit. -/
def hexDigitLower (n : Nat) : Char :=
  if n < 10 then Char.ofNat (48 + n) else Char.ofNat (87 + n)

/-- Escape of one character inside a JSON string, per Python's json encoder
    with ensure_ascii=False. -/
def escChar (c : Char) : List Char :=
  if c = '\\' then ['\\', '\\']
  else if c = '"' then ['\\', '"']
  else if c = '\n' then ['\\', 'n']
  else if c = '\r' then ['\\', 'r']
  else if c = '\t' then ['\\', 't']
  else if c = Char.ofNat 8 then ['\\', 'b']
  else if c = Char.ofNat 12 then ['\\', 'f']
  else if c.toNat < 32 then
    ['\\', 'u', '0', '0', hexDigitLower (c.toNat / 16), hexDigitLower (c.toNat % 16)]
  else [c]

/-- Serialization of a JSON string (quotes plus escaped body). -/
def jserStr (s : List Char) : List Char :=
  '"' :: (s.flatMap escChar ++ ['"'])

/-- Decimal digits of a natural number, most significant first, accumulated
    onto acc. -/
def natDecAuxF : Nat → Nat → List Char → List Char
  | 0, n, acc => Char.ofNat (48 + n % 10) :: acc
  | fuel + 1, n, acc =>
      if n < 10 then Char.ofNat (48 + n) :: acc
      else natDecAuxF fuel (n / 10) (Char.ofNat (48 + n % 10) :: acc)

/-- Decimal digits of a natural number, most significant first, prepended
    to acc; the fuel, set to the number itself, always suffices. -/
def natDecAux (n : Nat) (acc : List Char) : List Char :=
  natDecAuxF n n acc

/-- Decimal rendering of an integer, as Python repr produces it. -/
def intDec (n : Int) : List Char :=
  if n < 0 then '-' :: natDecAux n.natAbs [] else natDecAux n.natAbs []

/-- Two-space indentation for a nesting level. -/
def indentPad (lvl : Nat) : List Char := List.replicate (2 * lvl) ' '

mutual

/-- Serialization of one value at a nesting level (model of json.dumps with
    indent=2 and ensure_ascii=False, over the float-free fragment; numLit
    emits its source text). -/
def jserVal (lvl : Nat) : JVal → List Char
  | .null => "null".toList
  | .bool true => "true".toList
  | .bool false => "false".toList
  | .int n => intDec n
  | .numLit cs => cs
  | .str s => jserStr s
  | .arr [] => ['[', ']']
  | .arr (x :: xs) =>
      '[' :: '\n' :: (jserItems (lvl + 1) x xs ++ '\n' :: (indentPad lvl ++ [']']))
  | .obj [] => ['{', '}']
  | .obj (kv :: kvs) =>
      '{' :: '\n' :: (jserPairs (lvl + 1) kv kvs ++ '\n' :: (indentPad lvl ++ ['}']))
termination_by v => sizeOf v
decreasing_by all_goals (simp_wf; try omega)

/-- Serialization of a non-empty run of array items, each on its own
    indented line, separated by comma-newline. -/
def jserItems (lvl : Nat) (x : JVal) : List JVal → List Char
  | [] => indentPad lvl ++ jserVal lvl x
  | y :: ys => indentPad lvl ++ jserVal lvl x ++ ',' :: '\n' :: jserItems lvl y ys
termination_by xs => 1 + sizeOf x + sizeOf xs
decreasing_by all_goals (simp_wf; try omega)

/-- Serialization of a non-empty run of object members, each on its own
    indented line, key colon-space value, separated by comma-newline. -/
def jserPairs (lvl : Nat) (kv : List Char × JVal) : List (List Char × JVal) → List Char
  | [] => indentPad lvl ++ jserStr kv.1 ++ ':' :: ' ' :: jserVal lvl kv.2
  | p :: ps =>
      indentPad lvl ++ jserStr kv.1 ++ ':' :: ' ' :: jserVal lvl kv.2 ++
        ',' :: '\n' :: jserPairs lvl p ps
termination_by ps => 1 + sizeOf kv + sizeOf ps
decreasing_by all_goals (simp_wf; try (rcases kv with ⟨k0, v0⟩; simp); try omega)

end

/-- Model of json.dumps(v, indent=2, ensure_ascii=False) at top level. -/
def jsonDumps (v : JVal) : List Char := jserVal 0 v

/-! ### Model of json.loads

A model of Python's json.loads over JVal: strict JSON (no trailing commas,
control characters inside strings rejected), whitespace per the json module,
object pairs collapsed into a dict with last-value-wins, integral numbers as
Python ints, non-integral numbers and the NaN / Infinity extensions carried
as numLit text.  Recursion is structural on a fuel counter; the input length
plus one always suffices, so the fuel is a modelling artifact only. -/

/-- Whitespace characters of the json module. -/
def jsonWs (c : Char) : Bool := c = ' ' || c = '\t' || c = '\n' || c = '\r'

/-- Skipping json whitespace. -/
def jskipWs : List Char → List Char
  | [] => []
  | c :: t => if jsonWs c then jskipWs t else c :: t

/-- Decimal digit test. -/
def isDigitCh (c : Char) : Bool := '0' ≤ c && c ≤ '9'

/-- Greedy run of decimal digits. -/
def jtakeDigits : List Char → List Char × List Char
  | [] => ([], [])
  | c :: t =>
      if isDigitCh c then
        let (ds, r) := jtakeDigits t
        (c :: ds, r)
      else ([], c :: t)

/-- Numeric value of a digit run. -/
def digitsNat (ds : List Char) : Nat :=
  ds.foldl (fun a c => a * 10 + (c.toNat - 48)) 0

/-- Integer part of the json number grammar: a single zero, or a nonzero
    digit followed by a greedy digit run. -/
def scanIntPart : List Char → Option (List Char × List Char)
  | [] => none
  | c :: t =>
      if c = '0' then some (['0'], t)
      else if isDigitCh c then
        let (ds, r) := jtakeDigits t
        some (c :: ds, r)
      else none

/-- Fraction group of the json number grammar: a dot followed by at least
    one digit, else nothing. -/
def scanFrac (cs2 : List Char) : List Char × List Char :=
  match cs2 with
  | c :: r =>
      if c = '.' then
        match jtakeDigits r with
        | ([], _) => ([], cs2)
        | (ds, r') => ('.' :: ds, r')
      else ([], cs2)
  | [] => ([], cs2)

/-- Exponent group of the json number grammar: e or E, an optional sign and
    at least one digit, else nothing. -/
def scanExp (cs3 : List Char) : List Char × List Char :=
  match cs3 with
  | e :: r =>
      if e = 'e' || e = 'E' then
        let (sg, r1) : List Char × List Char :=
          match r with
          | '+' :: r' => (['+'], r')
          | '-' :: r' => (['-'], r')
          | _ => ([], r)
        match jtakeDigits r1 with
        | ([], _) => ([], cs3)
        | (ds, r2) => (e :: (sg ++ ds), r2)
      else ([], cs3)
  | [] => ([], cs3)

/-- Model of the json module's number regular expression: integer part,
    optional fraction, optional exponent, each group matching only when
    complete.  Integral matches become Python ints, others keep their
    matched text. -/
def scanNumber (cs : List Char) : Option (JVal × List Char) :=
  let (neg, cs1) : Bool × List Char :=
    match cs with
    | c :: r => if c = '-' then (true, r) else (false, cs)
    | [] => (false, cs)
  match scanIntPart cs1 with
  | none => none
  | some (ip, cs2) =>
      let (fr, cs3) := scanFrac cs2
      let (ex, cs4) := scanExp cs3
      if fr.isEmpty && ex.isEmpty then
        some (.int (if neg then -(digitsNat ip : Int) else (digitsNat ip : Int)), cs4)
      else
        some (.numLit ((if neg then ['-'] else []) ++ ip ++ fr ++ ex), cs4)

/-- Value of one hexadecimal digit. -/
def hexVal (c : Char) : Option Nat :=
  if '0' ≤ c && c ≤ '9' then some (c.toNat - 48)
  else if 'a' ≤ c && c ≤ 'f' then some (c.toNat - 87)
  else if 'A' ≤ c && c ≤ 'F' then some (c.toNat - 55)
  else none

/-- Value of a four-digit hexadecimal escape. -/
def hexQuad (a b c d : Char) : Option Nat := do
  let x ← hexVal a
  let y ← hexVal b
  let z ← hexVal c
  let w ← hexVal d
  return ((x * 16 + y) * 16 + z) * 16 + w

/-- Code point to character; code points Lean cannot represent (lone
    surrogates, which Python would keep in the str) fall back to NUL. -/
def charOfCp (n : Nat) : Char := Char.ofNat n

/-- Short escapes of the json string grammar. -/
def jsonShortEsc : Char → Option Char
  | '"' => some '"'
  | '\\' => some '\\'
  | '/' => some '/'
  | 'b' => some (Char.ofNat 8)
  | 'f' => some (Char.ofNat 12)
  | 'n' => some '\n'
  | 'r' => some '\r'
  | 't' => some '\t'
  | _ => none

/-- Attempted decode of a low-surrogate u-escape at the head of the input,
    the lookahead Python performs after a high surrogate. -/
def decodeLowSur (s : List Char) : Option (Nat × List Char) :=
  match s with
  | '\\' :: 'u' :: a :: b :: c :: d :: r =>
      match hexQuad a b c d with
      | some m => if 0xDC00 ≤ m && m ≤ 0xDFFF then some (m, r) else none
      | none => none
  | _ => none

/-- Model of the json module's string scanner in strict mode, applied after
    the opening quote: returns the decoded body and the input after the
    closing quote.  A high surrogate followed by a low-surrogate u-escape
    combines into one code point; raw control characters are rejected.  The
    fuel, set to the input length plus one at the call sites, always
    suffices. -/
def scanStr : Nat → List Char → Option (List Char × List Char)
  | 0, _ => none
  | _, [] => none
  | fuel + 1, c :: r =>
      if c = '"' then some ([], r)
      else if c = '\\' then
        match r with
        | 'u' :: a :: b :: c2 :: d :: r2 =>
            (match hexQuad a b c2 d with
             | none => none
             | some n =>
                 if 0xD800 ≤ n && n ≤ 0xDBFF then
                   match decodeLowSur r2 with
                   | some (m, r3) =>
                       match scanStr fuel r3 with
                       | some (body, rest) =>
                           some (charOfCp (0x10000 + (n - 0xD800) * 0x400 + (m - 0xDC00))
                             :: body, rest)
                       | none => none
                   | none =>
                       match scanStr fuel r2 with
                       | some (body, rest) => some (charOfCp n :: body, rest)
                       | none => none
                 else
                   match scanStr fuel r2 with
                   | some (body, rest) => some (charOfCp n :: body, rest)
                   | none => none)
        | e :: r2 =>
            (match jsonShortEsc e with
             | none => none
             | some ch =>
                 match scanStr fuel r2 with
                 | some (body, rest) => some (ch :: body, rest)
                 | none => none)
        | [] => none
      else if c.toNat < 32 then none
      else
        match scanStr fuel r with
        | some (body, rest) => some (c :: body, rest)
        | none => none

mutual

/-- Model of the json module's scan_once: one value at the given position
    (no leading whitespace skipped here, as in Python): dispatch on the
    first character for strings and containers, then the three keyword
    literals, then the number grammar and the NaN and Infinity extensions. -/
def scanValue : Nat → List Char → Option (JVal × List Char)
  | 0, _ => none
  | _ + 1, [] => none
  | fuel + 1, c :: r =>
      if c = '"' then
        match scanStr (r.length + 1) r with
        | some (body, rest) => some (.str body, rest)
        | none => none
      else if c = '{' then
        match jskipWs r with
        | '}' :: r2 => some (.obj [], r2)
        | r1 =>
            match scanPairs fuel r1 with
            | some (ps, rest) => some (.obj (dictOfPairs ps), rest)
            | none => none
      else if c = '[' then
        match jskipWs r with
        | ']' :: r2 => some (.arr [], r2)
        | r1 =>
            match scanElems fuel r1 with
            | some (xs, rest) => some (.arr xs, rest)
            | none => none
      else if ['n', 'u', 'l', 'l'].isPrefixOf (c :: r) then some (.null, (c :: r).drop 4)
      else if ['t', 'r', 'u', 'e'].isPrefixOf (c :: r) then some (.bool true, (c :: r).drop 4)
      else if ['f', 'a', 'l', 's', 'e'].isPrefixOf (c :: r) then
        some (.bool false, (c :: r).drop 5)
      else
        match scanNumber (c :: r) with
        | some (v, r2) => some (v, r2)
        | none =>
            if ['N', 'a', 'N'].isPrefixOf (c :: r) then
              some (.numLit ['N', 'a', 'N'], (c :: r).drop 3)
            else if ['I', 'n', 'f', 'i', 'n', 'i', 't', 'y'].isPrefixOf (c :: r) then
              some (.numLit ['I', 'n', 'f', 'i', 'n', 'i', 't', 'y'], (c :: r).drop 8)
            else if ['-', 'I', 'n', 'f', 'i', 'n', 'i', 't', 'y'].isPrefixOf (c :: r) then
              some (.numLit ['-', 'I', 'n', 'f', 'i', 'n', 'i', 't', 'y'], (c :: r).drop 9)
            else none

/-- Model of the json module's object member loop, positioned at the first
    key's opening quote. -/
def scanPairs : Nat → List Char → Option (List (List Char × JVal) × List Char)
  | 0, _ => none
  | fuel + 1, cs =>
      match cs with
      | '"' :: r =>
          match scanStr (r.length + 1) r with
          | none => none
          | some (k, r1) =>
              match jskipWs r1 with
              | ':' :: r2 =>
                  match scanValue fuel (jskipWs r2) with
                  | none => none
                  | some (v, r3) =>
                      match jskipWs r3 with
                      | '}' :: r4 => some ([(k, v)], r4)
                      | ',' :: r4 =>
                          match scanPairs fuel (jskipWs r4) with
                          | none => none
                          | some (ps, r5) => some ((k, v) :: ps, r5)
                      | _ => none
              | _ => none
      | _ => none

/-- Model of the json module's array element loop, positioned at the first
    element. -/
def scanElems : Nat → List Char → Option (List JVal × List Char)
  | 0, _ => none
  | fuel + 1, cs =>
      match scanValue fuel cs with
      | none => none
      | some (v, r) =>
          match jskipWs r with
          | ']' :: r2 => some ([v], r2)
          | ',' :: r2 =>
              match scanElems fuel (jskipWs r2) with
              | none => none
              | some (vs, r3) => some (v :: vs, r3)
          | _ => none

end

/-- Model of json.loads: skip leading whitespace, scan one value, require
    only whitespace after it. -/
def jsonLoads (s : List Char) : Option JVal :=
  match scanValue (s.length + 1) (jskipWs s) with
  | none => none
  | some (v, r) => if jskipWs r = [] then some v else none

/-! ### File-backed cache model

The on-disk store is modelled as an association list from paths to file
contents; writing prepends (open followed by write truncates), reading takes
the first match, os.path.exists is a successful lookup. -/

/-- A file system: path to contents. -/
def FileSys : Type := List (List Char × List Char)

/-- Contents of a path, if the file exists. -/
def fsLookup (fs : FileSys) (p : List Char) : Option (List Char) :=
  match fs with
  | [] => none
  | (q, c) :: rest => if q = p then some c else fsLookup rest p

/-- Writing a file (creating or overwriting). -/
def fsWrite (fs : FileSys) (p content : List Char) : FileSys :=
  (p, content) :: fs

/-! ### Embedding of src/features/testCaseGeneration/generator.py (cache part) -/

/-- Embedding of get_cache_file_path: sanitize the ticket id by replacing
    the two path separators with underscores, then join the cache directory
    with the derived file name. -/
def get_cache_file_path (ticket_id : List Char) : List Char :=
  let safe_ticket_id := pyReplace ['\\'] ['_'] (pyReplace ['/'] ['_'] ticket_id)
  "testcaseGenerated/".toList ++ safe_ticket_id ++ "_test_case.json".toList

/-- Embedding of load_cached_test_cases: read the cache file if it exists
    and parse it as JSON; a missing file or a parse error (corrupted file)
    yields None. -/
def load_cached_test_cases (ticket_id : List Char) (fs : FileSys) : Option JVal :=
  match fsLookup fs (get_cache_file_path ticket_id) with
  | some content => jsonLoads content
  | none => none

/-- Embedding of save_test_cases_to_cache: serialize the payload with
    json.dump(indent=2, ensure_ascii=False) into the cache file. -/
def save_test_cases_to_cache (ticket_id : List Char) (test_cases_data : JVal)
    (fs : FileSys) : FileSys :=
  fsWrite fs (get_cache_file_path ticket_id) (jsonDumps test_cases_data)

/-! ### Embedding of src/features/codeGenerator/generator.py -/

/-- Embedding of get_code_cache_file_path: the test-case id is sanitized by
    replacing path separators and spaces, the optional ticket id only by
    replacing path separators; a falsy ticket id (None or empty) selects the
    ticket-less file name. -/
def get_code_cache_file_path (test_case_id : List Char) (ticket_id : Option (List Char)) :
    List Char :=
  let safe_test_case_id :=
    pyReplace [' '] ['_'] (pyReplace ['\\'] ['_'] (pyReplace ['/'] ['_'] test_case_id))
  match ticket_id with
  | some t =>
      if t.isEmpty then "codeGenerated/".toList ++ safe_test_case_id ++ "_code.json".toList
      else
        let safe_ticket_id := pyReplace ['\\'] ['_'] (pyReplace ['/'] ['_'] t)
        "codeGenerated/".toList ++ safe_ticket_id ++ ['_'] ++ safe_test_case_id ++
          "_code.json".toList
  | none => "codeGenerated/".toList ++ safe_test_case_id ++ "_code.json".toList

/-- Embedding of load_cached_code: read and parse the code cache file; a
    missing file or a corrupted payload yields None. -/
def load_cached_code (test_case_id : List Char) (ticket_id : Option (List Char))
    (fs : FileSys) : Option JVal :=
  match fsLookup fs (get_code_cache_file_path test_case_id ticket_id) with
  | some content => jsonLoads content
  | none => none

/-- Embedding of the save_data dictionary that save_code_to_cache assembles:
    metadata, the raw code payload under the code key and the display payload
    under the formatted key.  The generated date (datetime.now) is passed in
    as a parameter. -/
def code_cache_entry (test_case_id test_case_title ticket_id now : List Char)
    (code_data formatted_code : JVal) : JVal :=
  .obj [("test_case_id".toList, .str test_case_id),
        ("test_case_title".toList, .str test_case_title),
        ("ticket_id".toList, .str ticket_id),
        ("generated_date".toList, .str now),
        ("code".toList, code_data),
        ("formatted".toList, formatted_code)]

/-- Embedding of save_code_to_cache: write the assembled entry, serialized
    with json.dump(indent=2, ensure_ascii=False), to the code cache file. -/
def save_code_to_cache (test_case_id test_case_title ticket_id now : List Char)
    (code_data formatted_code : JVal) (fs : FileSys) : FileSys :=
  fsWrite fs (get_code_cache_file_path test_case_id (some ticket_id))
    (jsonDumps (code_cache_entry test_case_id test_case_title ticket_id now
      code_data formatted_code))

/-- Equality of a dynamic value with a string literal, as Python compares
    data.get(...) results against string constants (a non-string compares
    unequal). -/
def beqStrJ (v : JVal) (s : List Char) : Bool :=
  match v with
  | .str t => t == s
  | _ => false

/-- Model of the Python membership test key in v for a string key: key
    lookup on a dict, element equality on a list, substring test on a str,
    TypeError (None) on non-containers. -/
def pyInOp (key : List Char) (v : JVal) : Option Bool :=
  match v with
  | .obj kvs => some (kvs.any (fun kv => kv.1 == key))
  | .arr xs => some (xs.any (fun x => match x with | .str s => s == key | _ => false))
  | .str s => some (pyIn key s)
  | _ => none

/-- Model of all(key in parsed for key in keys): the first TypeError
    propagates, otherwise the conjunction. -/
def allKeysIn (keys : List (List Char)) (v : JVal) : Option Bool :=
  match keys with
  | [] => some true
  | k :: ks =>
      match pyInOp k v with
      | none => none
      | some b => if b then allKeysIn ks v else some false

/-- The four keys parse_code_json requires. -/
def requiredCodeKeys : List (List Char) :=
  ["locators".toList, "reusable_functions".toList, "test_functions".toList,
   "cursor_prompt".toList]

/-- Embedding of the json_str extraction step of parse_code_json: a json
    code fence, a bare code fence (with optional language identifier), or
    the span from the first opening brace to the last closing brace, else
    the raw text. -/
def extract_code_json_str (raw : List Char) : List Char :=
  if pyIn "```json".toList raw then
    let start := pyFind raw "```json".toList + 7
    let e := pyFindFrom raw "```".toList start.toNat
    pyStrip (pySlice raw start e)
  else if pyIn "```".toList raw then
    let start := pyFind raw "```".toList + 3
    let e := pyFindFrom raw "```".toList start.toNat
    let json_str := pyStrip (pySlice raw start e)
    if "json".toList.isPrefixOf json_str then pyStrip (json_str.drop 4) else json_str
  else
    let start := pyFind raw ['{']
    let e := pyRFind raw ['}'] + 1
    if start ≥ 0 && e > start then pySlice raw start e else raw

/-- Embedding of parse_code_json: extract a JSON candidate, parse it, and
    accept the result only when the membership test for the four required
    keys passes; on a parse error retry once after stripping the two
    trailing-comma patterns; any exception (including the TypeError the
    membership test can raise) yields None. -/
def parse_code_json (raw_output : List Char) : Option JVal :=
  let json_str := extract_code_json_str raw_output
  match jsonLoads json_str with
  | some parsed =>
      match allKeysIn requiredCodeKeys parsed with
      | some true => some parsed
      | _ => none
  | none =>
      let json_str2 :=
        pyReplace (',' :: '\n' :: [']']) ('\n' :: [']'])
          (pyReplace (',' :: '\n' :: ['}']) ('\n' :: ['}']) json_str)
      match jsonLoads json_str2 with
      | some parsed =>
          match allKeysIn requiredCodeKeys parsed with
          | some true => some parsed
          | _ => none
      | none => none

/-! ### Embedding of the test-case generation response pipeline
(src/features/testCaseGeneration/generator.py)

The three generation functions share a post-LLM phase: extract the first
brace-balanced JSON object from the raw output (string- and escape-aware),
parse it, and dispatch on the status field.  The LLM call itself is an
external collaborator; the embedding starts from the raw output text. -/

/-- Embedding of the brace-counting loop of generate_test_cases: walks the
    text from the first opening brace, tracking the escape flag, the
    inside-string flag and the brace counter, and reports the length of the
    span ending where the counter first returns to zero. -/
def braceScanLoop : List Char → Int → Bool → Bool → Nat → Option Nat
  | [], _, _, _, _ => none
  | c :: cs, bal, inStr, esc, n =>
      if esc then braceScanLoop cs bal inStr false (n + 1)
      else if c = '\\' then braceScanLoop cs bal inStr true (n + 1)
      else if c = '"' then braceScanLoop cs bal (!inStr) esc (n + 1)
      else if inStr then braceScanLoop cs bal inStr esc (n + 1)
      else if c = '{' then braceScanLoop cs (bal + 1) inStr esc (n + 1)
      else if c = '}' then
        (if bal - 1 = 0 then some (n + 1) else braceScanLoop cs (bal - 1) inStr esc (n + 1))
      else braceScanLoop cs bal inStr esc (n + 1)

/-- Embedding of the candidate extraction of generate_test_cases: the span
    from the first opening brace to the position where the brace counter
    returns to zero; None when there is no opening brace or the counter
    never returns to zero (the whole-input fallback cases). -/
def tcgen_extract_candidate (s : List Char) : Option (List Char) :=
  let start := pyFind s ['{']
  if start ≠ -1 then
    let tail := s.drop start.toNat
    match braceScanLoop tail 0 false false 0 with
    | some len => some (tail.take len)
    | none => none
  else none

/-- Embedding of the extract-then-parse step shared by the three generation
    functions: parse the balanced candidate if one exists, otherwise fall
    back to parsing the entire output. -/
def tcgen_parse_output (s : List Char) : Option JVal :=
  match tcgen_extract_candidate s with
  | some json_str => jsonLoads json_str
  | none => jsonLoads s

/-- Python str() of a dynamic value as it appears inside the sources'
    f-string error messages.  Strings render as themselves and scalars as
    their Python spelling; container reprs are abbreviated to their JSON
    form, which the settled claims never exercise. -/
def pyStrOf : JVal → List Char
  | .null => "None".toList
  | .bool true => "True".toList
  | .bool false => "False".toList
  | .int n => intDec n
  | .numLit cs => cs
  | .str s => s
  | .arr _ => "[...]".toList
  | .obj _ => "{...}".toList

/-- One row of a formatted test case: the step and its expected result. -/
structure TCRow where
  step : JVal
  expected : JVal

/-- One formatted test case as the generation functions build it. -/
structure FormattedTC where
  id : JVal
  title : JVal
  steps : List TCRow

/-- Model of Python iteration over a dynamic value, as the for loops over
    steps and test_cases use it: lists yield elements, strings yield
    one-character strings, dicts yield keys; other values raise TypeError
    (None). -/
def pyIterate : JVal → Option (List JVal)
  | .arr xs => some xs
  | .str s => some (s.map (fun c => .str [c]))
  | .obj kvs => some (kvs.map (fun kv => .str kv.1))
  | _ => none

/-- Model of Python len() on a dynamic value. -/
def pyLen : JVal → Option Nat
  | .arr xs => some xs.length
  | .str s => some s.length
  | .obj kvs => some kvs.length
  | _ => none

/-- Model of subscripting a dynamic value with a natural index, as
    expected_results[i] does: lists and strings index positionally, dicts
    raise KeyError for an integer key (their keys are strings here), other
    values raise TypeError. -/
def pySubscript (v : JVal) (i : Nat) : Option JVal :=
  match v with
  | .arr xs => xs.get? i
  | .str s => (s.get? i).map (fun c => .str [c])
  | _ => none

/-- Embedding of the step-formatting loop shared by the generation
    functions: row i pairs the step with expected_results[i] when the index
    is in range and with the empty string otherwise; an exception while
    indexing aborts the whole call (None). -/
def formatStepRows (items : List JVal) (expected_results : JVal) (elen : Nat)
    (i : Nat) : Option (List TCRow) :=
  match items with
  | [] => some []
  | st :: rest =>
      match (if i < elen then pySubscript expected_results i else some (.str [])) with
      | none => none
      | some e =>
          match formatStepRows rest expected_results elen (i + 1) with
          | none => none
          | some tl => some (⟨st, e⟩ :: tl)

/-- Embedding of the per-test-case formatting of the generation functions:
    read id, title, steps and expected_results with their defaults, iterate
    the steps and build the rows; any dynamic-typing exception aborts the
    call (None mirrors the generic except handler). -/
def formatTestCase (tc : JVal) : Option FormattedTC :=
  match tc with
  | .obj kvs =>
      let tc_id := dictGet kvs "id".toList (.str [])
      let tc_title := dictGet kvs "title".toList (.str "Untitled".toList)
      let steps := dictGet kvs "steps".toList (.arr [])
      let expected_results := dictGet kvs "expected_results".toList (.arr [])
      match pyIterate steps with
      | none => none
      | some items =>
          match items with
          | [] => some ⟨tc_id, tc_title, []⟩
          | _ =>
              match pyLen expected_results with
              | none => none
              | some elen =>
                  match formatStepRows items expected_results elen 0 with
                  | none => none
                  | some rows => some ⟨tc_id, tc_title, rows⟩
  | _ => none

/-- Formatting of every test case in order; the first exception aborts. -/
def formatTestCaseList : List JVal → Option (List FormattedTC)
  | [] => some []
  | tc :: rest =>
      match formatTestCase tc with
      | none => none
      | some ft =>
          match formatTestCaseList rest with
          | none => none
          | some fts => some (ft :: fts)

/-- Outcome of one generation call, as the callers observe it: a success
    with formatted test cases, a needs-more-info result carrying the saved
    question context, or an error message. -/
inductive GenOutcome where
  | ok (formatted : List FormattedTC)
  | needsInfo (msg : List Char) (questions : JVal)
  | err (msg : List Char)

/-- The questions text the needs-more-info branches render. -/
def questionsText (questions : JVal) : List Char :=
  if jTruthy questions then
    match pyIterate questions with
    | some qs =>
        match qs with
        | [] => []
        | q :: rest =>
            rest.foldl (fun acc x => acc ++ '\n' :: '-' :: ' ' :: pyStrOf x)
              ('-' :: ' ' :: pyStrOf q)
    | none => "No specific questions provided.".toList
  else "No specific questions provided.".toList

/-- Embedding of the status dispatch of generate_test_cases on the parsed
    payload: invalid, needs_more_info and ready in that order, any other
    status is the unknown-status error; a ready status with a falsy
    test_cases value is the empty-ready error. -/
def tcgen_process_payload (data : JVal) (raw : List Char) : GenOutcome :=
  let status := jGet data "status".toList (.str [])
  if beqStrJ status "invalid".toList then
    .err ("Jira ticket is not suitable for test case generation: ".toList ++
      pyStrOf (jGet data "notes".toList (.str "Invalid ticket".toList)))
  else if beqStrJ status "needs_more_info".toList then
    let questions := jGet data "questions".toList (.arr [])
    .needsInfo ("NEEDS_MORE_INFO:".toList ++
      pyStrOf (jGet data "notes".toList (.str [])) ++
      '\n' :: '\n' :: "Please provide:".toList ++ '\n' :: questionsText questions)
      questions
  else if beqStrJ status "ready".toList then
    let test_cases := jGet data "test_cases".toList (.arr [])
    if !jTruthy test_cases then
      .err "No test cases generated despite ready status.".toList
    else
      match pyIterate test_cases with
      | none => .err "Error generating test cases: TypeError".toList
      | some tcl =>
          match formatTestCaseList tcl with
          | none => .err "Error generating test cases: TypeError".toList
          | some fts => .ok fts
  else
    .err ("Unknown status: ".toList ++ pyStrOf status ++ ". Raw output: ".toList ++ raw)

/-- Embedding of the status dispatch of generate_test_cases_with_additional_info,
    which mirrors the initial-generation dispatch branch for branch. -/
def tcgen_info_process_payload (data : JVal) (raw : List Char) : GenOutcome :=
  let status := jGet data "status".toList (.str [])
  if beqStrJ status "invalid".toList then
    .err ("Jira ticket is not suitable for test case generation: ".toList ++
      pyStrOf (jGet data "notes".toList (.str "Invalid ticket".toList)))
  else if beqStrJ status "needs_more_info".toList then
    let questions := jGet data "questions".toList (.arr [])
    .needsInfo ("NEEDS_MORE_INFO:".toList ++
      pyStrOf (jGet data "notes".toList (.str [])) ++
      '\n' :: '\n' :: "Please provide:".toList ++ '\n' :: questionsText questions)
      questions
  else if beqStrJ status "ready".toList then
    let test_cases := jGet data "test_cases".toList (.arr [])
    if !jTruthy test_cases then
      .err "No test cases generated despite ready status.".toList
    else
      match pyIterate test_cases with
      | none => .err "Error generating test cases: TypeError".toList
      | some tcl =>
          match formatTestCaseList tcl with
          | none => .err "Error generating test cases: TypeError".toList
          | some fts => .ok fts
  else
    .err ("Unknown status: ".toList ++ pyStrOf status ++ ". Raw output: ".toList ++ raw)

/-- Embedding of the status dispatch of regenerate_test_cases_with_feedback:
    only a ready status produces test cases; every other status, including
    needs_more_info and invalid, is the unexpected-status error. -/
def tcgen_regen_process_payload (data : JVal) (raw : List Char) : GenOutcome :=
  let status := jGet data "status".toList (.str [])
  if beqStrJ status "ready".toList then
    let test_cases := jGet data "test_cases".toList (.arr [])
    if !jTruthy test_cases then
      .err "No test cases generated.".toList
    else
      match pyIterate test_cases with
      | none => .err "Error regenerating test cases: TypeError".toList
      | some tcl =>
          match formatTestCaseList tcl with
          | none => .err "Error regenerating test cases: TypeError".toList
          | some fts => .ok fts
  else
    .err ("Unexpected status: ".toList ++ pyStrOf status ++
      ". Expected ".toList ++ Char.ofNat 39 :: "ready".toList ++
      Char.ofNat 39 :: ". Raw output: ".toList ++ raw)

/-! ### Embedding of src/features/recording

The action extractor (_extract_actions_from_code in playwright_codegen.py)
scans generated Playwright code line by line and emits navigate, click and
fill action dictionaries; recorder.py turns action lists into readable test
steps and locator code.  Timestamps (datetime.now) carry no information the
claims touch and are elided from the action model. -/

/-- The single-quote character, used when building the quoted pieces of the
    sources' messages and patterns. -/
def sqc : Char := Char.ofNat 39

/-- The selector field of an action dictionary: the extractor stores a
    selector dictionary (type, value and, on some paths, name), while other
    recorder paths store a plain selector string; absent selectors read back
    as the empty string through dict.get. -/
inductive PySel where
  | dictSel (typ : List Char) (value : List Char) (name : List Char)
  | strSel (s : List Char)

/-- One recorded action dictionary: its type tag and the fields the
    modelled code reads, each defaulting like dict.get does. -/
structure RecAction where
  typ : List Char
  url : List Char := []
  selector : PySel := .strSel []
  value : List Char := []
  key : List Char := []

/-- A navigate action. -/
def navAction (url : List Char) : RecAction := { typ := "navigate".toList, url := url }

/-- Embedding of the navigation branch of _extract_actions_from_code: try
    the double-quoted then the single-quoted goto pattern, taking the text
    up to the next matching quote; an unterminated quote falls through to
    the other quote style. -/
def gotoExtract (line : List Char) : Option (List Char) :=
  let tryQuote : Char → Option (List Char) := fun q =>
    let pat := "page.goto(".toList ++ [q]
    if pyIn pat line then
      let start := pyFind line pat + (pat.length : Int)
      let e := pyFindFrom line [q] start.toNat
      if e > start then some (pySlice line start e) else none
    else none
  match tryQuote '"' with
  | some url => some url
  | none => tryQuote sqc

/-- Embedding of the quoted-argument extraction the click and fill branches
    share: position after the double-quoted accessor pattern, falling back
    to the single-quoted pattern when the former is absent, then take the
    text up to the next double quote if one remains, else up to the next
    single quote. -/
def accessorArg (line : List Char) (accessor : List Char) : Option (List Char) :=
  let patD := accessor ++ ['(', '"']
  let patS := accessor ++ ['(', sqc]
  let start0 := pyFind line patD + (patD.length : Int)
  let start := if start0 < (patD.length : Int) then pyFind line patS + (patS.length : Int)
               else start0
  let e := if pyIn ['"'] (line.drop start.toNat) then pyFindFrom line ['"'] start.toNat
           else pyFindFrom line [sqc] start.toNat
  if e > start then some (pySlice line start e) else none

/-- Embedding of the selector resolution of the click branch: test-id
    accessor, then role accessor, then generic locator accessor; no other
    accessor is recognized. -/
def clickSelectorInfo (line : List Char) : Option PySel :=
  if pyIn "get_by_test_id(".toList line then
    match accessorArg line "get_by_test_id".toList with
    | some selector => some (.dictSel "testid".toList selector [])
    | none => none
  else if pyIn "get_by_role(".toList line then
    match accessorArg line "get_by_role".toList with
    | some role => some (.dictSel "role".toList role [])
    | none => none
  else if pyIn "locator(".toList line then
    match accessorArg line "locator".toList with
    | some selector => some (.dictSel "css".toList selector [])
    | none => none
  else none

/-- Embedding of the selector resolution of the fill branch: test-id
    accessor, then generic locator accessor only. -/
def fillSelectorInfo (line : List Char) : Option PySel :=
  if pyIn "get_by_test_id(".toList line then
    match accessorArg line "get_by_test_id".toList with
    | some selector => some (.dictSel "testid".toList selector [])
    | none => none
  else if pyIn "locator(".toList line then
    match accessorArg line "locator".toList with
    | some selector => some (.dictSel "css".toList selector [])
    | none => none
  else none

/-- Embedding of the fill-value extraction: the double-quoted then the
    single-quoted fill pattern, defaulting to the empty string. -/
def fillValue (line : List Char) : List Char :=
  let tryPat : Char → Option (List Char) := fun q =>
    let pat := ".fill(".toList ++ [q]
    if pyIn pat line then
      let value_start := pyFind line pat + (pat.length : Int)
      let value_end := pyFindFrom line [q] value_start.toNat
      if value_end > value_start then some (pySlice line value_start value_end) else none
    else none
  match tryPat '"' with
  | some v => v
  | none =>
      match tryPat sqc with
      | some v => v
      | none => []

/-- Embedding of the per-line classification of _extract_actions_from_code:
    a goto line yields at most one navigate action, otherwise a line
    containing the click invocation yields at most one click action,
    otherwise a line containing the fill invocation yields at most one fill
    action; other lines are ignored. -/
def lineActions (stripped : List Char) : List RecAction :=
  if pyIn "page.goto(".toList stripped then
    match gotoExtract stripped with
    | some url => [navAction url]
    | none => []
  else if pyIn ".click()".toList stripped then
    match clickSelectorInfo stripped with
    | some si => [{ typ := "click".toList, selector := si }]
    | none => []
  else if pyIn ".fill(".toList stripped then
    match fillSelectorInfo stripped with
    | some si => [{ typ := "fill".toList, selector := si, value := fillValue stripped }]
    | none => []
  else []

/-- Embedding of _extract_actions_from_code: empty generated code records
    the initial navigation; otherwise each stripped line is classified
    independently, and a scan that found nothing still records the initial
    navigation. -/
def extract_actions_from_code (generated_python_code start_url : List Char) :
    List RecAction :=
  if generated_python_code.isEmpty then [navAction start_url]
  else
    let actions :=
      (pySplitChar '\n' generated_python_code).foldl
        (fun acc l => acc ++ lineActions (pyStrip l)) []
    if actions.isEmpty then [navAction start_url] else actions

/-- Embedding of _make_selector_readable: expects a selector string; the
    selector dictionaries the extractor emits have no startswith attribute,
    so they raise AttributeError, modelled as the error case. -/
def make_selector_readable (selector : PySel) : Except (List Char) (List Char) :=
  match selector with
  | .dictSel _ _ _ =>
      .error ("AttributeError: dict object has no attribute startswith".toList)
  | .strSel s =>
      if s.isEmpty then .ok "element".toList
      else if "data-testid=".toList.isPrefixOf s then
        .ok (pyReplace "data-testid=".toList [] s)
      else if s.take 1 = ['#'] then
        .ok ("element with id ".toList ++ sqc :: s.drop 1 ++ [sqc])
      else if ("[name=".toList ++ [sqc]).isPrefixOf s then
        .ok ("field ".toList ++ sqc ::
          pyReplace ([sqc] ++ "]".toList) [] (pyReplace ("[name=".toList ++ [sqc]) [] s) ++ [sqc])
      else if ("text=".toList ++ [sqc]).isPrefixOf s then
        .ok (sqc :: pyReplace [sqc] [] (pyReplace ("text=".toList ++ [sqc]) [] s) ++ [sqc])
      else .ok s

/-- Embedding of the numbering loop of convert_actions_to_test_steps; the
    AttributeError a selector dictionary provokes aborts the whole
    conversion, as an uncaught Python exception would. -/
def convertStepsLoop : List RecAction → Nat → Except (List Char) (List (List Char))
  | [], _ => .ok []
  | a :: rest, step_num =>
      if a.typ == "navigate".toList then
        match convertStepsLoop rest (step_num + 1) with
        | .error e => .error e
        | .ok tl => .ok ((natDecAux step_num [] ++ ". Navigate to ".toList ++ a.url) :: tl)
      else if a.typ == "click".toList then
        match make_selector_readable a.selector with
        | .error e => .error e
        | .ok readable =>
            match convertStepsLoop rest (step_num + 1) with
            | .error e => .error e
            | .ok tl => .ok ((natDecAux step_num [] ++ ". Click on ".toList ++ readable) :: tl)
      else if a.typ == "fill".toList then
        match make_selector_readable a.selector with
        | .error e => .error e
        | .ok readable =>
            match convertStepsLoop rest (step_num + 1) with
            | .error e => .error e
            | .ok tl =>
                .ok ((natDecAux step_num [] ++ ". Enter ".toList ++ sqc :: a.value ++
                  sqc :: " in ".toList ++ readable) :: tl)
      else if a.typ == "keypress".toList then
        match convertStepsLoop rest (step_num + 1) with
        | .error e => .error e
        | .ok tl => .ok ((natDecAux step_num [] ++ ". Press ".toList ++ a.key ++ " key".toList) :: tl)
      else convertStepsLoop rest step_num

/-- Embedding of convert_actions_to_test_steps. -/
def convert_actions_to_test_steps (actions : List RecAction) :
    Except (List Char) (List (List Char)) :=
  convertStepsLoop actions 1

/-- The opening and closing brace characters, spelled out for the generated
    code lines that contain them literally. -/
def obr : Char := Char.ofNat 123

/-- The closing brace character. -/
def cbr : Char := Char.ofNat 125

/-- Embedding of the locator-emission loop of _extract_locators_from_actions:
    string selectors and empty values are skipped, each (type, value) pair is
    seen once, and only the five known selector types emit a declaration pair
    (the css type is deduplicated but emits nothing). -/
def locatorLoop : List RecAction → List (List Char) → List (List Char × List Char)
  | [], _ => []
  | a :: rest, seen =>
      match a.selector with
      | .strSel _ => locatorLoop rest seen
      | .dictSel sel_type sel_value sel_name =>
          if sel_value.isEmpty then locatorLoop rest seen
          else
            let locator_key := sel_type ++ ['_'] ++ sel_value
            if seen.contains locator_key then locatorLoop rest seen
            else
              let seen' := seen ++ [locator_key]
              let nm := pyLower (pyReplace [' '] ['_'] (pyReplace ['-'] ['_'] sel_value))
              let locator_name := if nm.length > 30 then nm.take 30 else nm
              if sel_type == "testid".toList then
                ("    ".toList ++ locator_name ++ " = page.get_by_test_id(\"".toList ++
                    sel_value ++ "\")".toList,
                 "const ".toList ++ locator_name ++ " = page.getByTestId(".toList ++
                    sqc :: sel_value ++ sqc :: ");".toList) :: locatorLoop rest seen'
              else if sel_type == "role".toList then
                (if !sel_name.isEmpty then
                  ("    ".toList ++ locator_name ++ " = page.get_by_role(\"".toList ++
                      sel_value ++ "\", name=\"".toList ++ sel_name ++ "\")".toList,
                   "const ".toList ++ locator_name ++ " = page.getByRole(".toList ++
                      sqc :: sel_value ++ sqc :: ", ".toList ++ obr :: " name: ".toList ++
                      sqc :: sel_name ++ sqc :: ' ' :: cbr :: ");".toList)
                 else
                  ("    ".toList ++ locator_name ++ " = page.get_by_role(\"".toList ++
                      sel_value ++ "\")".toList,
                   "const ".toList ++ locator_name ++ " = page.getByRole(".toList ++
                      sqc :: sel_value ++ sqc :: ");".toList)) :: locatorLoop rest seen'
              else if sel_type == "text".toList then
                ("    ".toList ++ locator_name ++ " = page.get_by_text(\"".toList ++
                    sel_value ++ "\")".toList,
                 "const ".toList ++ locator_name ++ " = page.getByText(".toList ++
                    sqc :: sel_value ++ sqc :: ");".toList) :: locatorLoop rest seen'
              else if sel_type == "id".toList then
                ("    ".toList ++ locator_name ++ " = page.locator(\"#".toList ++
                    sel_value ++ "\")".toList,
                 "const ".toList ++ locator_name ++ " = page.locator(".toList ++
                    sqc :: '#' :: sel_value ++ sqc :: ");".toList) :: locatorLoop rest seen'
              else if sel_type == "name".toList then
                ("    ".toList ++ locator_name ++ " = page.locator(\"[name=\\\"".toList ++
                    sel_value ++ "\\\"]\")".toList,
                 "const ".toList ++ locator_name ++ " = page.locator(".toList ++
                    sqc :: "[name=\"".toList ++ sel_value ++ "\"]".toList ++ sqc :: ");".toList)
                  :: locatorLoop rest seen'
              else locatorLoop rest seen'

/-- Join with newlines, as str.join does. -/
def joinNl : List (List Char) → List Char
  | [] => []
  | [l] => l
  | l :: ls => l ++ '\n' :: joinNl ls

/-- Embedding of _extract_locators_from_actions: the emitted declaration
    pairs under the fixed headers, with the placeholder comment when no
    python locator was emitted.  The result is the pair of the python and
    javascript locator texts the recorder stores. -/
def extract_locators_from_actions (actions : List RecAction) : List Char × List Char :=
  let pairs := locatorLoop actions []
  let locators_python := "class Locators:".toList :: pairs.map (fun p => p.1)
  let locators_javascript := "// Locators".toList :: pairs.map (fun p => p.2)
  let locators_python :=
    if locators_python.length = 1 then
      locators_python ++ ["    # No locators recorded".toList]
    else locators_python
  (joinNl locators_python, joinNl locators_javascript)

/-- The C10 counterexample input: a JSON array spelling the four required
    key names. -/
def c10input : List Char :=
  "[\"locators\", \"reusable_functions\", \"test_functions\", \"cursor_prompt\"]".toList

/-- The C1 end-to-end input: the three generated Playwright lines of the
    claimed scenario. -/
def c1code : List Char :=
  "page.goto(\"https://x.test/login\")\npage.get_by_test_id(\"submit-btn\").click()\npage.locator(\"#email\").fill(\"a@b.com\")".toList

/-- The action list the extractor produces for the C1 scenario: the
    navigation, a click with a test-id selector dictionary and a fill with a
    css selector dictionary. -/
def c1actions : List RecAction :=
  [navAction "https://x.test/login".toList,
   { typ := "click".toList, selector := .dictSel "testid".toList "submit-btn".toList [] },
   { typ := "fill".toList, selector := .dictSel "css".toList "#email".toList [], value := "a@b.com".toList }]

/-! ### Round-trip of the cache serialization

The caches write with the json.dumps model and read with the json.loads
model; the following development proves that reading back a written entry
recovers it exactly, for every float-free value whose dicts are well formed
(which every Python dict is).  The proof follows the usual codec pattern:
digit, string and whitespace inverse lemmas, then a mutual induction on the
scanner fuel. -/

/-- A remainder that cannot extend a rendered integer: empty or headed by a
    character that is neither a digit nor one of dot, e, E.  Every character
    that can follow a serialized value qualifies. -/
def restDelim : List Char → Bool
  | [] => true
  | c :: _ => !(isDigitCh c || c = '.' || c = 'e' || c = 'E')

theorem jskipWs_cons_not {c : Char} (t : List Char) (h : jsonWs c = false) :
    jskipWs (c :: t) = c :: t := by
  simp [jskipWs, h]

theorem jskipWs_ws_append {ws : List Char} (z : List Char)
    (h : ∀ c ∈ ws, jsonWs c = true) : jskipWs (ws ++ z) = jskipWs z := by
  induction ws with
  | nil => rfl
  | cons c t ih =>
      have hc := h c (by simp)
      simp only [List.cons_append, jskipWs, hc, if_pos]
      exact ih (fun x hx => h x (by simp [hx]))

theorem indentPad_ws (lvl : Nat) : ∀ c ∈ indentPad lvl, jsonWs c = true := by
  intro c hc
  rw [indentPad, List.mem_replicate] at hc
  rw [hc.2]; rfl

theorem jsonWs_cases {c : Char} (h : jsonWs c = true) :
    c = ' ' ∨ c = '\t' ∨ c = '\n' ∨ c = '\r' := by
  simp only [jsonWs, Bool.or_eq_true, decide_eq_true_eq] at h
  tauto

theorem restDelim_of_ws {c : Char} (t : List Char) (h : jsonWs c = true) :
    restDelim (c :: t) = true := by
  rcases jsonWs_cases h with rfl | rfl | rfl | rfl <;> rfl

theorem restDelim_ws_append {ws : List Char} {z : List Char}
    (hws : ∀ c ∈ ws, jsonWs c = true) (hz : restDelim z = true) :
    restDelim (ws ++ z) = true := by
  cases ws with
  | nil => simpa using hz
  | cons c t => exact restDelim_of_ws _ (hws c (by simp))

/-- Valid code points below the surrogate range survive Char.ofNat. -/
theorem toNat_charOfCp {k : Nat} (h : k < 55296) : (Char.ofNat k).toNat = k := by
  have hv : Nat.isValidChar k := Or.inl h
  simp [Char.ofNat, hv, Char.ofNatAux, Char.toNat, UInt32.toNat, BitVec.toNat_ofNatLt]

theorem digit_char_facts {k : Nat} (h : k < 10) :
    isDigitCh (Char.ofNat (48 + k)) = true ∧ (Char.ofNat (48 + k)).toNat = 48 + k := by
  interval_cases k <;> exact ⟨by decide, by decide⟩

/-- Character-level facts about decimal digits, read off their code points. -/
theorem digit_not_special {c : Char} (h : isDigitCh c = true) :
    jsonWs c = false ∧ c ≠ ']' ∧ c ≠ '}' ∧ c ≠ ',' ∧ c ≠ '"' ∧ c ≠ '{' ∧ c ≠ '[' ∧
      c ≠ 'n' ∧ c ≠ 't' ∧ c ≠ 'f' ∧ c ≠ '-' ∧ c ≠ '.' ∧ c ≠ 'e' ∧ c ≠ 'E' ∧ c ≠ '\\' := by
  simp only [isDigitCh, Bool.and_eq_true, decide_eq_true_eq] at h
  obtain ⟨h1, h2⟩ := h
  have hlo : 48 ≤ c.toNat := h1
  have hhi : c.toNat ≤ 57 := h2
  refine ⟨?_, ?_⟩
  · simp only [jsonWs, Bool.or_eq_false_iff, decide_eq_false_iff_not]
    refine ⟨⟨⟨?_, ?_⟩, ?_⟩, ?_⟩ <;> (intro hx; subst hx; revert hlo hhi; decide)
  · refine ⟨?_, ?_, ?_, ?_, ?_, ?_, ?_, ?_, ?_, ?_, ?_, ?_, ?_, ?_⟩ <;>
      (intro hx; subst hx; revert hlo hhi; decide)

theorem natDecAuxF_append (fuel : Nat) : ∀ (n : Nat) (acc : List Char),
    natDecAuxF fuel n acc = natDecAuxF fuel n [] ++ acc := by
  induction fuel with
  | zero => intro n acc; rfl
  | succ f ih =>
      intro n acc
      by_cases h : n < 10
      · simp [natDecAuxF, h]
      · simp only [natDecAuxF, if_neg h]
        rw [ih (n / 10), ih (n / 10) (Char.ofNat (48 + n % 10) :: [])]
        simp

theorem natDecAuxF_fuel_irrel : ∀ (n f1 f2 : Nat), n ≤ f1 → n ≤ f2 →
    natDecAuxF f1 n [] = natDecAuxF f2 n [] := by
  intro n
  induction n using Nat.strongRecOn with
  | _ n ih =>
      intro f1 f2 h1 h2
      by_cases h : n < 10
      · cases f1 <;> cases f2 <;>
          simp [natDecAuxF, h, Nat.mod_eq_of_lt h]
      · match f1, f2 with
        | 0, _ => omega
        | _, 0 => omega
        | a + 1, b + 1 =>
            simp only [natDecAuxF, if_neg h]
            rw [natDecAuxF_append a, natDecAuxF_append b,
              ih (n / 10) (by omega) a b (by omega) (by omega)]

/-- The digits of n, as natDecAux produces them. -/
def natDigits (n : Nat) : List Char := natDecAux n []

theorem natDigits_unfold (n : Nat) :
    natDigits n = if n < 10 then [Char.ofNat (48 + n)]
      else natDigits (n / 10) ++ [Char.ofNat (48 + n % 10)] := by
  by_cases h : n < 10
  · match n, h with
    | 0, _ => rfl
    | m + 1, h => simp [natDigits, natDecAux, natDecAuxF, h]
  · match n, (by omega : 10 ≤ n) with
    | m + 1, _ =>
        simp only [natDigits, natDecAux, natDecAuxF, if_neg h]
        rw [natDecAuxF_append, natDecAuxF_fuel_irrel ((m + 1) / 10) m ((m + 1) / 10)
          (by omega) (by omega)]

theorem natDigits_ne_nil (n : Nat) : natDigits n ≠ [] := by
  rw [natDigits_unfold]
  by_cases h : n < 10 <;> simp [h]

theorem natDigits_digits (n : Nat) : ∀ c ∈ natDigits n, isDigitCh c = true := by
  induction n using Nat.strongRecOn with
  | _ n ih =>
      intro c hc
      rw [natDigits_unfold] at hc
      by_cases h : n < 10
      · rw [if_pos h] at hc
        rw [List.mem_singleton] at hc
        subst hc
        exact (digit_char_facts h).1
      · rw [if_neg h, List.mem_append] at hc
        rcases hc with hc | hc
        · exact ih (n / 10) (by omega) c hc
        · rw [List.mem_singleton] at hc
          subst hc
          exact (digit_char_facts (Nat.mod_lt _ (by omega))).1

theorem digitsNat_natDigits (n : Nat) : digitsNat (natDigits n) = n := by
  induction n using Nat.strongRecOn with
  | _ n ih =>
      rw [natDigits_unfold]
      by_cases h : n < 10
      · simp only [if_pos h, digitsNat, List.foldl_cons, List.foldl_nil]
        rw [(digit_char_facts h).2]
        omega
      · simp only [if_neg h, digitsNat, List.foldl_append, List.foldl_cons, List.foldl_nil]
        have := ih (n / 10) (by omega)
        rw [digitsNat] at this
        rw [this, (digit_char_facts (Nat.mod_lt _ (by omega))).2]
        omega

theorem natDigits_head (n : Nat) (h : 1 ≤ n) :
    ∃ c t, natDigits n = c :: t ∧ isDigitCh c = true ∧ c ≠ '0' := by
  induction n using Nat.strongRecOn with
  | _ n ih =>
      rw [natDigits_unfold]
      by_cases h10 : n < 10
      · refine ⟨Char.ofNat (48 + n), [], by simp [h10], (digit_char_facts h10).1, ?_⟩
        intro hx
        have h2 := congrArg Char.toNat hx
        rw [(digit_char_facts h10).2] at h2
        have h48 : ('0' : Char).toNat = 48 := rfl
        omega
      · obtain ⟨c, t, hct, hd, hz⟩ := ih (n / 10) (by omega) (by omega)
        exact ⟨c, t ++ [Char.ofNat (48 + n % 10)], by simp [h10, hct], hd, hz⟩

theorem restDelim_head {c : Char} {t : List Char} (h : restDelim (c :: t) = true) :
    isDigitCh c = false ∧ c ≠ '.' ∧ c ≠ 'e' ∧ c ≠ 'E' := by
  simp only [restDelim, Bool.not_eq_eq_eq_not, Bool.not_true, Bool.or_eq_false_iff,
    decide_eq_false_iff_not] at h
  exact ⟨h.1.1.1, h.1.1.2, h.1.2, h.2⟩

theorem jtakeDigits_stop {cs : List Char} (h : restDelim cs = true) :
    jtakeDigits cs = ([], cs) := by
  cases cs with
  | nil => rfl
  | cons c t => simp [jtakeDigits, (restDelim_head h).1]

theorem jtakeDigits_run {ds : List Char} (r : List Char)
    (hds : ∀ c ∈ ds, isDigitCh c = true) (hr : jtakeDigits r = ([], r)) :
    jtakeDigits (ds ++ r) = (ds, r) := by
  induction ds with
  | nil => simpa using hr
  | cons c t ih =>
      have hc : isDigitCh c = true := hds c (by simp)
      have ht := ih (fun x hx => hds x (by simp [hx]))
      simp [jtakeDigits, hc, ht]

theorem scanIntPart_natDigits (n : Nat) (rest : List Char) (hrest : restDelim rest = true) :
    scanIntPart (natDigits n ++ rest) = some (natDigits n, rest) := by
  by_cases h0 : n = 0
  · subst h0
    simp [natDigits, natDecAux, natDecAuxF, scanIntPart]
  · obtain ⟨c, t, hct, hd, hz⟩ := natDigits_head n (by omega)
    have hts : ∀ x ∈ t, isDigitCh x = true :=
      fun x hx => natDigits_digits n x (by rw [hct]; simp [hx])
    rw [hct]
    simp only [List.cons_append, scanIntPart, if_neg hz, hd, if_pos,
      jtakeDigits_run rest hts (jtakeDigits_stop hrest)]


theorem scanFrac_delim {cs : List Char} (h : restDelim cs = true) :
    scanFrac cs = ([], cs) := by
  cases cs with
  | nil => rfl
  | cons c t =>
      obtain ⟨_, hdot, _, _⟩ := restDelim_head h
      simp [scanFrac, hdot]

theorem scanExp_delim {cs : List Char} (h : restDelim cs = true) :
    scanExp cs = ([], cs) := by
  cases cs with
  | nil => rfl
  | cons c t =>
      obtain ⟨_, _, he, hE⟩ := restDelim_head h
      simp [scanExp, he, hE]

theorem scanNumber_intDec (n : Int) (rest : List Char) (hrest : restDelim rest = true) :
    scanNumber (intDec n ++ rest) = some (.int n, rest) := by
  by_cases hn : n < 0
  · have harg : intDec n ++ rest = '-' :: (natDigits n.natAbs ++ rest) := by
      simp [intDec, hn, natDigits, natDecAux]
    rw [harg]
    have hneg : -(n.natAbs : Int) = n := by omega
    simp only [scanNumber, scanIntPart_natDigits n.natAbs rest hrest,
      scanFrac_delim hrest, scanExp_delim hrest, List.isEmpty_nil, Bool.and_self,
      if_pos, if_true, digitsNat_natDigits, hneg]
  · obtain ⟨c, t, hct0⟩ : ∃ c t, natDigits n.natAbs = c :: t := by
      match h : natDigits n.natAbs with
      | [] => exact absurd h (natDigits_ne_nil _)
      | c :: t => exact ⟨c, t, rfl⟩
    have hcd : isDigitCh c = true := natDigits_digits _ c (by rw [hct0]; simp)
    have hcm : c ≠ '-' := (digit_not_special hcd).2.2.2.2.2.2.2.2.2.2.1
    have harg : intDec n ++ rest = c :: (t ++ rest) := by
      simp only [intDec, if_neg hn]
      show natDigits n.natAbs ++ rest = _
      rw [hct0]
      rfl
    have hpos : ((n.natAbs : Int)) = n := by omega
    rw [harg]
    simp only [scanNumber, if_neg hcm]
    have harg2 : c :: (t ++ rest) = natDigits n.natAbs ++ rest := by
      rw [hct0]; rfl
    rw [harg2]
    simp only [scanIntPart_natDigits n.natAbs rest hrest, scanFrac_delim hrest,
      scanExp_delim hrest, List.isEmpty_nil, Bool.and_self, if_pos, if_true,
      digitsNat_natDigits, hpos, Bool.false_eq_true, if_false]

theorem hexVal_hexDigitLower {k : Nat} (h : k < 16) :
    hexVal (hexDigitLower k) = some k := by
  interval_cases k <;> decide

theorem escChar_length_pos (c : Char) : 0 < (escChar c).length := by
  rw [escChar]
  repeat' split
  all_goals simp

/-- Scanning one escaped character prepends that character: the scanner
    undoes escChar whatever follows. -/
theorem scanStr_escStep (c : Char) (fuel : Nat) (rest : List Char) :
    scanStr (fuel + 1) (escChar c ++ rest) =
      match scanStr fuel rest with
      | some (body, r) => some (c :: body, r)
      | none => none := by
  by_cases h1 : c = '\\'
  · subst h1; rfl
  by_cases h2 : c = '"'
  · subst h2; rfl
  by_cases h3 : c = '\n'
  · subst h3; rfl
  by_cases h4 : c = '\r'
  · subst h4; rfl
  by_cases h5 : c = '\t'
  · subst h5; rfl
  by_cases h6 : c = Char.ofNat 8
  · subst h6; rfl
  by_cases h7 : c = Char.ofNat 12
  · subst h7; rfl
  by_cases h8 : c.toNat < 32
  · have hdiv : c.toNat / 16 < 16 := by omega
    have hmod : c.toNat % 16 < 16 := by omega
    have harg : escChar c ++ rest =
        '\\' :: 'u' :: '0' :: '0' :: hexDigitLower (c.toNat / 16) ::
          hexDigitLower (c.toNat % 16) :: rest := by
      simp [escChar, h1, h2, h3, h4, h5, h6, h7, h8]
    rw [harg]
    have hq : hexQuad '0' '0' (hexDigitLower (c.toNat / 16)) (hexDigitLower (c.toNat % 16))
        = some (c.toNat) := by
      have h0 : hexVal '0' = some 0 := by decide
      simp [hexQuad, h0, hexVal_hexDigitLower hdiv, hexVal_hexDigitLower hmod]
      omega
    have hsur : (decide (55296 ≤ c.toNat) && decide (c.toNat ≤ 56319)) = false := by
      have : ¬(55296 ≤ c.toNat) := by omega
      simp [this]
    simp [scanStr, hq, hsur, charOfCp, Char.ofNat_toNat]
  · have harg : escChar c ++ rest = c :: rest := by
      simp [escChar, h1, h2, h3, h4, h5, h6, h7, h8]
    rw [harg]
    simp only [scanStr, if_neg h2, if_neg h1, if_neg h8]

theorem scanStr_flatMapEsc : ∀ (body : List Char) (fuel : Nat) (rest : List Char),
    (body.flatMap escChar).length < fuel →
    scanStr fuel (body.flatMap escChar ++ '"' :: rest) = some (body, rest) := by
  intro body
  induction body with
  | nil =>
      intro fuel rest hf
      cases fuel with
      | zero => simp at hf
      | succ f => rfl
  | cons c b ih =>
      intro fuel rest hf
      have hcpos := escChar_length_pos c
      rw [List.flatMap_cons] at hf ⊢
      rw [List.length_append] at hf
      cases fuel with
      | zero => omega
      | succ f =>
          rw [List.append_assoc, scanStr_escStep, ih f rest (by omega)]

/-- Distinctness of the keys of a dict model (Python dicts hold each key
    once). -/
def keysDistinct : List (List Char × JVal) → Bool
  | [] => true
  | (k, _) :: rest => !(rest.any (fun kv => kv.1 == k)) && keysDistinct rest

mutual

/-- Well-formedness of a value as every Python value the caches serialize
    satisfies it: no floats, and each dict's keys distinct.  The fuel only
    bounds the recursion; any fuel at least the nesting depth certifies the
    same property. -/
def wfJF : Nat → JVal → Bool
  | 0, _ => false
  | _ + 1, .null => true
  | _ + 1, .bool _ => true
  | _ + 1, .int _ => true
  | _ + 1, .numLit _ => false
  | _ + 1, .str _ => true
  | fuel + 1, .arr xs => wfArrF fuel xs
  | fuel + 1, .obj kvs => keysDistinct kvs && wfObjF fuel kvs

/-- Elementwise well-formedness of array elements. -/
def wfArrF : Nat → List JVal → Bool
  | 0, _ => false
  | _ + 1, [] => true
  | fuel + 1, x :: xs => wfJF fuel x && wfArrF fuel xs

/-- Valuewise well-formedness of object members. -/
def wfObjF : Nat → List (List Char × JVal) → Bool
  | 0, _ => false
  | _ + 1, [] => true
  | fuel + 1, kv :: kvs => wfJF fuel kv.2 && wfObjF fuel kvs

end

theorem wfJF_not_numLit {fuel : Nat} {v : JVal} (h : wfJF fuel v = true) :
    ∀ cs, v ≠ .numLit cs := by
  intro cs hv
  subst hv
  cases fuel <;> simp [wfJF] at h

theorem dictInsert_notmem {kvs : List (List Char × JVal)} {k : List Char} (v : JVal)
    (h : ∀ kv ∈ kvs, kv.1 ≠ k) : dictInsert kvs k v = kvs ++ [(k, v)] := by
  induction kvs with
  | nil => rfl
  | cons kv rest ih =>
      obtain ⟨k', v'⟩ := kv
      have hk : k' ≠ k := h (k', v') (by simp)
      simp only [dictInsert, if_neg hk, List.cons_append]
      rw [ih (fun x hx => h x (by simp [hx]))]

theorem keysDistinct_cons {k : List Char} {v : JVal} {rest : List (List Char × JVal)}
    (h : keysDistinct ((k, v) :: rest) = true) :
    (∀ kv ∈ rest, kv.1 ≠ k) ∧ keysDistinct rest = true := by
  simp only [keysDistinct, Bool.and_eq_true, Bool.not_eq_eq_eq_not, Bool.not_true,
    List.any_eq_false] at h
  exact ⟨fun kv hkv => by simpa using h.1 kv hkv, h.2⟩

theorem dictOfPairs_foldl (ps : List (List Char × JVal)) : ∀ acc,
    keysDistinct ps = true →
    (∀ kv ∈ ps, ∀ kv' ∈ acc, kv'.1 ≠ kv.1) →
    ps.foldl (fun a kv => dictInsert a kv.1 kv.2) acc = acc ++ ps := by
  induction ps with
  | nil => intro acc _ _; simp
  | cons kv rest ih =>
      intro acc hdist hdisj
      obtain ⟨k, v⟩ := kv
      obtain ⟨hnot, hrest⟩ := keysDistinct_cons hdist
      rw [List.foldl_cons]
      have hins : dictInsert acc k v = acc ++ [(k, v)] :=
        dictInsert_notmem v (fun kv' hkv' => hdisj (k, v) (by simp) kv' hkv')
      rw [hins, ih (acc ++ [(k, v)]) hrest]
      · simp
      · intro kv hkv kv' hkv'
        rcases List.mem_append.mp hkv' with hin | hin
        · exact hdisj kv (by simp [hkv]) kv' hin
        · rw [List.mem_singleton] at hin
          subst hin
          exact fun he => (hnot kv hkv) he.symm

theorem dictOfPairs_distinct {ps : List (List Char × JVal)}
    (h : keysDistinct ps = true) : dictOfPairs ps = ps := by
  rw [dictOfPairs, dictOfPairs_foldl ps [] h (by simp)]
  rfl

/-- Trailing part of a serialized item run after the first item. -/
def jserItemsTail (lvl : Nat) : List JVal → List Char
  | [] => []
  | y :: ys => ',' :: '\n' :: jserItems lvl y ys

/-- Trailing part of a serialized member run after the first member. -/
def jserPairsTail (lvl : Nat) : List (List Char × JVal) → List Char
  | [] => []
  | p :: ps => ',' :: '\n' :: jserPairs lvl p ps

theorem jserItems_decomp (lvl : Nat) (x : JVal) (xs : List JVal) :
    jserItems lvl x xs = indentPad lvl ++ jserVal lvl x ++ jserItemsTail lvl xs := by
  cases xs <;> simp [jserItems, jserItemsTail]

theorem jserPairs_decomp (lvl : Nat) (kv : List Char × JVal)
    (kvs : List (List Char × JVal)) :
    jserPairs lvl kv kvs =
      indentPad lvl ++ jserStr kv.1 ++ ':' :: ' ' :: jserVal lvl kv.2 ++
        jserPairsTail lvl kvs := by
  cases kvs <;> simp [jserPairs, jserPairsTail]

theorem jserVal_head (lvl : Nat) (v : JVal) (hnf : ∀ cs, v ≠ .numLit cs) :
    ∃ c t, jserVal lvl v = c :: t ∧ jsonWs c = false ∧ c ≠ ']' ∧ c ≠ '}' := by
  cases v with
  | null => exact ⟨'n', ['u', 'l', 'l'], by simp [jserVal], by decide, by decide, by decide⟩
  | bool b =>
      cases b with
      | true => exact ⟨'t', ['r', 'u', 'e'], by simp [jserVal], by decide, by decide, by decide⟩
      | false =>
          exact ⟨'f', ['a', 'l', 's', 'e'], by simp [jserVal], by decide, by decide, by decide⟩
  | int n =>
      by_cases hn : n < 0
      · exact ⟨'-', natDecAux n.natAbs [], by simp [jserVal, intDec, hn], by decide,
          by decide, by decide⟩
      · obtain ⟨c, t, hct⟩ : ∃ c t, natDigits n.natAbs = c :: t := by
          match h : natDigits n.natAbs with
          | [] => exact absurd h (natDigits_ne_nil _)
          | c :: t => exact ⟨c, t, rfl⟩
        have hcd : isDigitCh c = true := natDigits_digits _ c (by rw [hct]; simp)
        obtain ⟨hws, hrb, hcb, _⟩ := digit_not_special hcd
        refine ⟨c, t, ?_, hws, hrb, hcb⟩
        simp only [jserVal, intDec, if_neg hn]
        exact hct
  | numLit cs => exact absurd rfl (hnf cs)
  | str s =>
      exact ⟨'"', s.flatMap escChar ++ ['"'], by simp [jserVal, jserStr], by decide,
        by decide, by decide⟩
  | arr xs =>
      cases xs with
      | nil => exact ⟨'[', [']'], by simp [jserVal], by decide, by decide, by decide⟩
      | cons x xs =>
          exact ⟨'[', '\n' :: (jserItems (lvl + 1) x xs ++ '\n' :: (indentPad lvl ++ [']'])),
            by simp [jserVal], by decide, by decide, by decide⟩
  | obj kvs =>
      cases kvs with
      | nil => exact ⟨'{', ['}'], by simp [jserVal], by decide, by decide, by decide⟩
      | cons kv kvs =>
          exact ⟨'{', '\n' :: (jserPairs (lvl + 1) kv kvs ++ '\n' :: (indentPad lvl ++ ['}'])),
            by simp [jserVal], by decide, by decide, by decide⟩

theorem jskipWs_jserVal (lvl : Nat) (v : JVal) (hnf : ∀ cs, v ≠ .numLit cs)
    (z : List Char) : jskipWs (jserVal lvl v ++ z) = jserVal lvl v ++ z := by
  obtain ⟨c, t, hct, hws, _, _⟩ := jserVal_head lvl v hnf
  rw [hct, List.cons_append, jskipWs_cons_not _ hws]

theorem jserVal_length_pos (lvl : Nat) (v : JVal) (hnf : ∀ cs, v ≠ .numLit cs) :
    0 < (jserVal lvl v).length := by
  obtain ⟨c, t, hct, _, _, _⟩ := jserVal_head lvl v hnf
  rw [hct]
  simp

theorem scanValue_num (fuel : Nat) (c : Char) (t : List Char) (v : JVal) (r : List Char)
    (hq : c ≠ '"') (hob : c ≠ '{') (hab : c ≠ '[') (hn : c ≠ 'n') (ht : c ≠ 't')
    (hf : c ≠ 'f') (hsn : scanNumber (c :: t) = some (v, r)) :
    scanValue (fuel + 1) (c :: t) = some (v, r) := by
  have pn : (['n', 'u', 'l', 'l'].isPrefixOf (c :: t)) = false := by
    simp [List.isPrefixOf, Ne.symm hn]
  have pt : (['t', 'r', 'u', 'e'].isPrefixOf (c :: t)) = false := by
    simp [List.isPrefixOf, Ne.symm ht]
  have pf : (['f', 'a', 'l', 's', 'e'].isPrefixOf (c :: t)) = false := by
    simp [List.isPrefixOf, Ne.symm hf]
  simp only [scanValue, if_neg hq, if_neg hob, if_neg hab, pn, pt, pf,
    Bool.false_eq_true, if_false, hsn]


theorem wfArrF_cons_parts {wfuel : Nat} {x : JVal} {xs : List JVal}
    (h : wfArrF wfuel (x :: xs) = true) :
    ∃ w, wfuel = w + 1 ∧ wfJF w x = true ∧ wfArrF w xs = true := by
  match wfuel, h with
  | 0, h => exact absurd h (by simp [wfArrF])
  | w + 1, h =>
      simp only [wfArrF, Bool.and_eq_true] at h
      exact ⟨w, rfl, h.1, h.2⟩

theorem wfObjF_cons_parts {wfuel : Nat} {kv : List Char × JVal}
    {kvs : List (List Char × JVal)} (h : wfObjF wfuel (kv :: kvs) = true) :
    ∃ w, wfuel = w + 1 ∧ wfJF w kv.2 = true ∧ wfObjF w kvs = true := by
  match wfuel, h with
  | 0, h => exact absurd h (by simp [wfObjF])
  | w + 1, h =>
      simp only [wfObjF, Bool.and_eq_true] at h
      exact ⟨w, rfl, h.1, h.2⟩

theorem wfJF_arr_parts {wfuel : Nat} {xs : List JVal}
    (h : wfJF wfuel (.arr xs) = true) :
    ∃ w, wfuel = w + 1 ∧ wfArrF w xs = true := by
  match wfuel, h with
  | 0, h => exact absurd h (by simp [wfJF])
  | w + 1, h => exact ⟨w, rfl, by simpa [wfJF] using h⟩

theorem wfJF_obj_parts {wfuel : Nat} {kvs : List (List Char × JVal)}
    (h : wfJF wfuel (.obj kvs) = true) :
    ∃ w, wfuel = w + 1 ∧ keysDistinct kvs = true ∧ wfObjF w kvs = true := by
  match wfuel, h with
  | 0, h => exact absurd h (by simp [wfJF])
  | w + 1, h =>
      refine ⟨w, rfl, ?_⟩
      simpa [wfJF, Bool.and_eq_true] using h

theorem scanValue_arr_step (fuel : Nat) (r : List Char) (c : Char) (t : List Char)
    (xs : List JVal) (rest : List Char)
    (hskipr : jskipWs r = c :: t) (hc : c ≠ ']')
    (helems : scanElems fuel (c :: t) = some (xs, rest)) :
    scanValue (fuel + 1) ('[' :: r) = some (.arr xs, rest) := by
  simp only [scanValue]
  rw [if_neg (by decide : ¬('[' : Char) = '"'), if_neg (by decide : ¬('[' : Char) = '{'),
    if_pos (trivial : True), hskipr]
  split
  · rename_i heq
    exact absurd (List.head_eq_of_cons_eq heq) hc
  · rw [helems]

theorem scanValue_obj_step (fuel : Nat) (r : List Char) (c : Char) (t : List Char)
    (ps : List (List Char × JVal)) (rest : List Char)
    (hskipr : jskipWs r = c :: t) (hc : c ≠ '}')
    (hpairs : scanPairs fuel (c :: t) = some (ps, rest)) :
    scanValue (fuel + 1) ('{' :: r) = some (.obj (dictOfPairs ps), rest) := by
  simp only [scanValue]
  rw [if_neg (by decide : ¬('{' : Char) = '"'), if_pos (trivial : True), hskipr]
  split
  · rename_i heq
    exact absurd (List.head_eq_of_cons_eq heq) hc
  · rw [hpairs]

theorem jskipWs_cons_ws {c : Char} (t : List Char) (h : jsonWs c = true) :
    jskipWs (c :: t) = jskipWs t := by
  simp [jskipWs, h]

theorem scanElems_last (fuel : Nat) (cs r rest : List Char) (x : JVal)
    (hv : scanValue fuel cs = some (x, r))
    (hr : jskipWs r = ']' :: rest) :
    scanElems (fuel + 1) cs = some ([x], rest) := by
  simp only [scanElems, hv, hr]

theorem scanElems_more (fuel : Nat) (cs r r2 rest : List Char) (x : JVal)
    (xs : List JVal)
    (hv : scanValue fuel cs = some (x, r))
    (hr : jskipWs r = ',' :: r2)
    (hrec : scanElems fuel (jskipWs r2) = some (xs, rest)) :
    scanElems (fuel + 1) cs = some (x :: xs, rest) := by
  simp only [scanElems, hv, hr]
  split
  · rename_i heq
    rw [hrec] at heq
    cases heq
  · rename_i vs r2b heq
    rw [hrec] at heq
    cases heq
    rfl

theorem scanPairs_last (fuel : Nat) (r r1 r2 r3 rest : List Char) (k : List Char)
    (v : JVal)
    (hs : scanStr (r.length + 1) r = some (k, r1))
    (h1 : jskipWs r1 = ':' :: r2)
    (hv : scanValue fuel (jskipWs r2) = some (v, r3))
    (h3 : jskipWs r3 = '}' :: rest) :
    scanPairs (fuel + 1) ('"' :: r) = some ([(k, v)], rest) := by
  simp only [scanPairs, hs, h1, hv, h3]

theorem scanPairs_more (fuel : Nat) (r r1 r2 r3 r4 rest : List Char) (k : List Char)
    (v : JVal) (ps : List (List Char × JVal))
    (hs : scanStr (r.length + 1) r = some (k, r1))
    (h1 : jskipWs r1 = ':' :: r2)
    (hv : scanValue fuel (jskipWs r2) = some (v, r3))
    (h3 : jskipWs r3 = ',' :: r4)
    (hrec : scanPairs fuel (jskipWs r4) = some (ps, rest)) :
    scanPairs (fuel + 1) ('"' :: r) = some ((k, v) :: ps, rest) := by
  simp only [scanPairs, hs, h1, hv, h3]
  split
  · rename_i heq
    rw [hrec] at heq
    cases heq
  · rename_i ps2 r5 heq
    rw [hrec] at heq
    cases heq
    rfl

mutual

/-- Scanning a serialized value at any level recovers it, for any fuel
    above the serialized length and any remainder that cannot extend a
    number. -/
theorem rtVal : ∀ (fuel : Nat) (lvl wfuel : Nat) (v : JVal) (rest : List Char),
    wfJF wfuel v = true → (jserVal lvl v).length < fuel → restDelim rest = true →
    scanValue fuel (jserVal lvl v ++ rest) = some (v, rest)
  | 0, _, _, _, _ => fun _ hfl _ => absurd hfl (Nat.not_lt_zero _)
  | fuel + 1, lvl, wfuel, v, rest => fun hwf hfl hrd => by
      cases v with
      | null => simp [jserVal, scanValue, List.isPrefixOf]
      | bool b => cases b <;> simp [jserVal, scanValue, List.isPrefixOf]
      | int n =>
          simp only [jserVal] at hfl ⊢
          have hsn := scanNumber_intDec n rest hrd
          by_cases hn : n < 0
          · have harg : intDec n ++ rest = '-' :: (natDigits n.natAbs ++ rest) := by
              simp [intDec, hn, natDigits, natDecAux]
            rw [harg] at hsn ⊢
            exact scanValue_num fuel '-' _ _ _ (by decide) (by decide) (by decide)
              (by decide) (by decide) (by decide) hsn
          · obtain ⟨c, t, hct⟩ : ∃ c t, natDigits n.natAbs = c :: t := by
              match h : natDigits n.natAbs with
              | [] => exact absurd h (natDigits_ne_nil _)
              | c :: t => exact ⟨c, t, rfl⟩
            have hcd : isDigitCh c = true := natDigits_digits _ c (by rw [hct]; simp)
            obtain ⟨_, _, _, _, hq, hob, hab, hcn, hctl, hcf, _⟩ := digit_not_special hcd
            have harg : intDec n ++ rest = c :: (t ++ rest) := by
              simp only [intDec, if_neg hn]
              show natDigits n.natAbs ++ rest = _
              rw [hct]
              rfl
            rw [harg] at hsn ⊢
            exact scanValue_num fuel c _ _ _ hq hob hab hcn hctl hcf hsn
      | numLit cs => exact absurd rfl (wfJF_not_numLit hwf cs)
      | str s =>
          have harg : jserVal lvl (.str s) ++ rest =
              '"' :: (s.flatMap escChar ++ ('"' :: rest)) := by
            simp [jserVal, jserStr]
          rw [harg]
          have hlen : (s.flatMap escChar).length <
              (s.flatMap escChar ++ ('"' :: rest)).length + 1 := by
            simp
            omega
          simp only [scanValue, if_pos rfl, ite_true, scanStr_flatMapEsc s _ rest hlen]
      | arr xs =>
          cases xs with
          | nil =>
              have harg : jserVal lvl (.arr []) ++ rest = '[' :: (']' :: rest) := by
                simp [jserVal]
              rw [harg]
              simp only [scanValue]
              rw [if_neg (by decide : ¬('[' : Char) = '"'),
                if_neg (by decide : ¬('[' : Char) = '{'), if_pos (trivial : True),
                jskipWs_cons_not _ (by decide : jsonWs ']' = false)]
              rfl
          | cons x xs =>
              obtain ⟨w1, hw1, hwf'⟩ := wfJF_arr_parts hwf
              obtain ⟨w0, hw0, hxwf, _⟩ := wfArrF_cons_parts hwf'
              have hxnl := wfJF_not_numLit hxwf
              obtain ⟨c, t, hct, hcw, hcrb, _⟩ := jserVal_head (lvl + 1) x hxnl
              have harg : jserVal lvl (.arr (x :: xs)) ++ rest =
                  '[' :: ('\n' :: (indentPad (lvl + 1) ++
                    (jserVal (lvl + 1) x ++ (jserItemsTail (lvl + 1) xs ++
                      ('\n' :: (indentPad lvl ++ ']' :: rest)))))) := by
                simp [jserVal, jserItems_decomp]
              rw [harg]
              have hskip : jskipWs ('\n' :: (indentPad (lvl + 1) ++
                  (jserVal (lvl + 1) x ++ (jserItemsTail (lvl + 1) xs ++
                    ('\n' :: (indentPad lvl ++ ']' :: rest)))))) =
                  c :: (t ++ (jserItemsTail (lvl + 1) xs ++
                    ('\n' :: (indentPad lvl ++ ']' :: rest)))) := by
                conv_lhs => rw [← List.cons_append]
                rw [jskipWs_ws_append _ (fun cc hcc => by
                    rcases List.mem_cons.mp hcc with rfl | hcc
                    · rfl
                    · exact indentPad_ws (lvl + 1) cc hcc),
                  jskipWs_jserVal _ _ hxnl, hct]
                simp
              have hfl' : (jserVal (lvl + 1) x).length +
                  (jserItemsTail (lvl + 1) xs).length + 1 < fuel := by
                simp only [jserVal] at hfl
                rw [jserItems_decomp] at hfl
                simp only [List.length_cons, List.length_append] at hfl
                omega
              have helems := rtElems fuel (lvl + 1) w1 x xs
                ('\n' :: indentPad lvl) rest hwf' hfl'
                (by
                  intro cc hcc
                  rcases List.mem_cons.mp hcc with rfl | hcc
                  · rfl
                  · exact indentPad_ws lvl cc hcc)
              rw [hct] at helems
              simp only [List.cons_append, List.append_assoc] at helems
              exact scanValue_arr_step fuel _ c _ (x :: xs) rest hskip hcrb helems
      | obj kvs =>
          cases kvs with
          | nil =>
              have harg : jserVal lvl (.obj []) ++ rest = '{' :: ('}' :: rest) := by
                simp [jserVal]
              rw [harg]
              simp only [scanValue]
              rw [if_neg (by decide : ¬('{' : Char) = '"'), if_pos (trivial : True),
                jskipWs_cons_not _ (by decide : jsonWs '}' = false)]
              rfl
          | cons kv kvs =>
              obtain ⟨w1, hw1, hkd, hwf'⟩ := wfJF_obj_parts hwf
              obtain ⟨w0, hw0, hvwf, _⟩ := wfObjF_cons_parts hwf'
              have harg : jserVal lvl (.obj (kv :: kvs)) ++ rest =
                  '{' :: ('\n' :: (indentPad (lvl + 1) ++
                    (jserStr kv.1 ++ (':' :: ' ' :: (jserVal (lvl + 1) kv.2 ++
                      (jserPairsTail (lvl + 1) kvs ++
                        ('\n' :: (indentPad lvl ++ '}' :: rest)))))))) := by
                simp [jserVal, jserPairs_decomp]
              rw [harg]
              have hskip : jskipWs ('\n' :: (indentPad (lvl + 1) ++
                  (jserStr kv.1 ++ (':' :: ' ' :: (jserVal (lvl + 1) kv.2 ++
                    (jserPairsTail (lvl + 1) kvs ++
                      ('\n' :: (indentPad lvl ++ '}' :: rest)))))))) =
                  '"' :: (kv.1.flatMap escChar ++ ('"' :: (':' :: ' ' ::
                    (jserVal (lvl + 1) kv.2 ++ (jserPairsTail (lvl + 1) kvs ++
                      ('\n' :: (indentPad lvl ++ '}' :: rest))))))) := by
                conv_lhs => rw [← List.cons_append]
                rw [jskipWs_ws_append _ (fun cc hcc => by
                    rcases List.mem_cons.mp hcc with rfl | hcc
                    · rfl
                    · exact indentPad_ws (lvl + 1) cc hcc)]
                rw [show jserStr kv.1 ++ (':' :: ' ' :: (jserVal (lvl + 1) kv.2 ++
                    (jserPairsTail (lvl + 1) kvs ++
                      ('\n' :: (indentPad lvl ++ '}' :: rest))))) =
                    '"' :: ((kv.1.flatMap escChar ++ ['"']) ++
                      (':' :: ' ' :: (jserVal (lvl + 1) kv.2 ++
                        (jserPairsTail (lvl + 1) kvs ++
                          ('\n' :: (indentPad lvl ++ '}' :: rest)))))) from by
                  simp [jserStr]]
                rw [jskipWs_cons_not _ (by decide : jsonWs '"' = false)]
                simp
              have hfl' : (jserStr kv.1).length + (jserVal (lvl + 1) kv.2).length +
                  (jserPairsTail (lvl + 1) kvs).length + 3 < fuel := by
                simp only [jserVal] at hfl
                rw [jserPairs_decomp] at hfl
                simp only [List.length_cons, List.length_append] at hfl
                omega
              have hpairs := rtPairs fuel (lvl + 1) w1 kv kvs
                ('\n' :: indentPad lvl) rest hwf' hfl'
                (by
                  intro cc hcc
                  rcases List.mem_cons.mp hcc with rfl | hcc
                  · rfl
                  · exact indentPad_ws lvl cc hcc)
              simp only [List.cons_append, List.append_assoc] at hpairs
              have hstep := scanValue_obj_step fuel _ '"' _ (kv :: kvs) rest hskip
                (by decide) hpairs
              rw [hstep, dictOfPairs_distinct hkd]
termination_by fuel => fuel

/-- Scanning a serialized item run recovers the items and stops at the
    closing bracket past any trailing whitespace. -/
theorem rtElems : ∀ (fuel : Nat) (lvl wfuel : Nat) (x : JVal) (xs : List JVal)
    (ws rest : List Char),
    wfArrF wfuel (x :: xs) = true →
    (jserVal lvl x).length + (jserItemsTail lvl xs).length + 1 < fuel →
    (∀ c ∈ ws, jsonWs c = true) →
    scanElems fuel (jserVal lvl x ++ (jserItemsTail lvl xs ++ (ws ++ ']' :: rest)))
      = some (x :: xs, rest)
  | 0, _, _, _, _, _, _ => fun _ hfl _ => absurd hfl (Nat.not_lt_zero _)
  | fuel + 1, lvl, wfuel, x, xs, ws, rest => fun hwf hfl hws => by
      obtain ⟨w0, hw0, hxwf, hxs⟩ := wfArrF_cons_parts hwf
      have hxnl := wfJF_not_numLit hxwf
      have hT : restDelim (jserItemsTail lvl xs ++ (ws ++ ']' :: rest)) = true := by
        cases xs with
        | nil =>
            simp only [jserItemsTail, List.nil_append]
            exact restDelim_ws_append hws (by rfl)
        | cons y ys => rfl
      have hvx := rtVal fuel lvl w0 x (jserItemsTail lvl xs ++ (ws ++ ']' :: rest))
        hxwf (by omega) hT
      cases xs with
      | nil =>
          refine scanElems_last fuel _ _ rest x hvx ?_
          simp only [jserItemsTail, List.nil_append]
          rw [jskipWs_ws_append _ hws, jskipWs_cons_not _ (by decide : jsonWs ']' = false)]
      | cons y ys =>
          obtain ⟨w2, hw2, hywf, _⟩ := wfArrF_cons_parts hxs
          have hynl := wfJF_not_numLit hywf
          have hxlen := jserVal_length_pos lvl x hxnl
          have hexp : jserItemsTail lvl (y :: ys) =
              ',' :: '\n' :: (indentPad lvl ++ jserVal lvl y ++
                jserItemsTail lvl ys) := by
            rw [show jserItemsTail lvl (y :: ys) = ',' :: '\n' :: jserItems lvl y ys
                from rfl, jserItems_decomp]
          have hfl' : (jserVal lvl y).length + (jserItemsTail lvl ys).length + 1
              < fuel := by
            rw [hexp] at hfl
            simp only [List.length_cons, List.length_append] at hfl
            omega
          have hih := rtElems fuel lvl w0 y ys ws rest hxs hfl' hws
          have hr : jskipWs (jserItemsTail lvl (y :: ys) ++ (ws ++ ']' :: rest)) =
              ',' :: ('\n' :: (indentPad lvl ++ (jserVal lvl y ++
                (jserItemsTail lvl ys ++ (ws ++ ']' :: rest))))) := by
            rw [show jserItemsTail lvl (y :: ys) ++ (ws ++ ']' :: rest) =
                ',' :: ('\n' :: (indentPad lvl ++ (jserVal lvl y ++
                  (jserItemsTail lvl ys ++ (ws ++ ']' :: rest))))) from by
              rw [hexp]
              simp only [List.cons_append, List.append_assoc]]
            exact jskipWs_cons_not _ (by decide)
          have hrec : scanElems fuel (jskipWs ('\n' :: (indentPad lvl ++
              (jserVal lvl y ++ (jserItemsTail lvl ys ++ (ws ++ ']' :: rest))))))
              = some (y :: ys, rest) := by
            conv_lhs => rw [← List.cons_append]
            rw [jskipWs_ws_append _ (fun cc hcc => by
                rcases List.mem_cons.mp hcc with rfl | hcc
                · rfl
                · exact indentPad_ws lvl cc hcc),
              jskipWs_jserVal _ _ hynl]
            exact hih
          exact scanElems_more fuel _ _ _ rest x (y :: ys) hvx hr hrec
termination_by fuel => fuel

/-- Scanning a serialized member run recovers the members and stops at the
    closing brace past any trailing whitespace. -/
theorem rtPairs : ∀ (fuel : Nat) (lvl wfuel : Nat) (kv : List Char × JVal)
    (kvs : List (List Char × JVal)) (ws rest : List Char),
    wfObjF wfuel (kv :: kvs) = true →
    (jserStr kv.1).length + (jserVal lvl kv.2).length +
      (jserPairsTail lvl kvs).length + 3 < fuel →
    (∀ c ∈ ws, jsonWs c = true) →
    scanPairs fuel ('"' :: (kv.1.flatMap escChar ++ ('"' :: (':' :: ' ' ::
      (jserVal lvl kv.2 ++ (jserPairsTail lvl kvs ++ (ws ++ '}' :: rest)))))))
      = some (kv :: kvs, rest)
  | 0, _, _, _, _, _, _ => fun _ hfl _ => absurd hfl (Nat.not_lt_zero _)
  | fuel + 1, lvl, wfuel, kv, kvs, ws, rest => fun hwf hfl hws => by
      obtain ⟨w0, hw0, hvwf, hps⟩ := wfObjF_cons_parts hwf
      have hvnl := wfJF_not_numLit hvwf
      have hs := scanStr_flatMapEsc kv.1
        ((kv.1.flatMap escChar ++ ('"' :: (':' :: ' ' :: (jserVal lvl kv.2 ++
          (jserPairsTail lvl kvs ++ (ws ++ '}' :: rest)))))).length + 1)
        (':' :: ' ' :: (jserVal lvl kv.2 ++ (jserPairsTail lvl kvs ++
          (ws ++ '}' :: rest))))
        (by simp only [List.length_append, List.length_cons]; omega)
      have h1 : jskipWs (':' :: ' ' :: (jserVal lvl kv.2 ++
          (jserPairsTail lvl kvs ++ (ws ++ '}' :: rest)))) =
          ':' :: (' ' :: (jserVal lvl kv.2 ++ (jserPairsTail lvl kvs ++
            (ws ++ '}' :: rest)))) :=
        jskipWs_cons_not _ (by decide)
      have hT : restDelim (jserPairsTail lvl kvs ++ (ws ++ '}' :: rest)) = true := by
        cases kvs with
        | nil =>
            simp only [jserPairsTail, List.nil_append]
            exact restDelim_ws_append hws (by rfl)
        | cons p ps => rfl
      have hv : scanValue fuel (jskipWs (' ' :: (jserVal lvl kv.2 ++
          (jserPairsTail lvl kvs ++ (ws ++ '}' :: rest)))))
          = some (kv.2, jserPairsTail lvl kvs ++ (ws ++ '}' :: rest)) := by
        rw [jskipWs_cons_ws _ (by decide), jskipWs_jserVal _ _ hvnl]
        exact rtVal fuel lvl w0 kv.2 _ hvwf (by omega) hT
      cases kvs with
      | nil =>
          refine scanPairs_last fuel _ _ _ _ rest kv.1 kv.2 hs h1 hv ?_
          simp only [jserPairsTail, List.nil_append]
          rw [jskipWs_ws_append _ hws,
            jskipWs_cons_not _ (by decide : jsonWs '}' = false)]
      | cons p ps =>
          have hexp : jserPairsTail lvl (p :: ps) =
              ',' :: '\n' :: (indentPad lvl ++ jserStr p.1 ++
                ':' :: ' ' :: jserVal lvl p.2 ++ jserPairsTail lvl ps) := by
            rw [show jserPairsTail lvl (p :: ps) = ',' :: '\n' :: jserPairs lvl p ps
                from rfl, jserPairs_decomp]
          have hfl2 : (jserStr p.1).length + (jserVal lvl p.2).length +
              (jserPairsTail lvl ps).length + 3 < fuel := by
            rw [hexp] at hfl
            simp only [List.length_cons, List.length_append] at hfl
            omega
          have hih := rtPairs fuel lvl w0 p ps ws rest hps hfl2 hws
          have h3 : jskipWs (jserPairsTail lvl (p :: ps) ++ (ws ++ '}' :: rest)) =
              ',' :: ('\n' :: (jserPairs lvl p ps ++ (ws ++ '}' :: rest))) := by
            rw [show jserPairsTail lvl (p :: ps) ++ (ws ++ '}' :: rest) =
                ',' :: ('\n' :: (jserPairs lvl p ps ++ (ws ++ '}' :: rest))) from by
              rw [show jserPairsTail lvl (p :: ps) =
                  ',' :: '\n' :: jserPairs lvl p ps from rfl]
              simp only [List.cons_append]]
            exact jskipWs_cons_not _ (by decide)
          have hrec : scanPairs fuel (jskipWs ('\n' :: (jserPairs lvl p ps ++
              (ws ++ '}' :: rest)))) = some (p :: ps, rest) := by
            rw [show ('\n' :: (jserPairs lvl p ps ++ (ws ++ '}' :: rest))) =
                ('\n' :: indentPad lvl) ++ ('"' :: (p.1.flatMap escChar ++
                  ('"' :: (':' :: ' ' :: (jserVal lvl p.2 ++
                    (jserPairsTail lvl ps ++ (ws ++ '}' :: rest))))))) from by
              simp [jserPairs_decomp, jserStr]]
            rw [jskipWs_ws_append _ (fun cc hcc => by
                rcases List.mem_cons.mp hcc with rfl | hcc
                · rfl
                · exact indentPad_ws lvl cc hcc),
              jskipWs_cons_not _ (by decide : jsonWs '"' = false)]
            exact hih
          exact scanPairs_more fuel _ _ _ _ _ rest kv.1 kv.2 (p :: ps) hs h1 hv h3 hrec
termination_by fuel => fuel

end

/-- Serializing a well-formed JSON value with jsonDumps and parsing the
    result back with jsonLoads recovers the original value. -/
theorem jsonLoads_jsonDumps (wfuel : Nat) (v : JVal) (hwf : wfJF wfuel v = true) :
    jsonLoads (jsonDumps v) = some v := by
  have hnl := wfJF_not_numLit hwf
  have hskip : jskipWs (jsonDumps v) = jserVal 0 v ++ [] := by
    rw [show jsonDumps v = jserVal 0 v ++ [] from by simp [jsonDumps]]
    exact jskipWs_jserVal 0 v hnl []
  have hv : scanValue ((jsonDumps v).length + 1) (jserVal 0 v ++ []) = some (v, []) :=
    rtVal _ 0 wfuel v [] hwf (by simp only [jsonDumps]; omega) rfl
  simp only [jsonLoads, hskip, hv]
  rfl

/-- The brace-counting loop's verdict is stable under appending text past
    the point where the counter returned to zero. -/
theorem braceScanLoop_extend : ∀ (xs t : List Char) (bal : Int) (inStr esc : Bool)
    (n m : Nat), braceScanLoop xs bal inStr esc n = some m →
    braceScanLoop (xs ++ t) bal inStr esc n = some m
  | [], _, _, _, _, _, _ => fun h => absurd h (by simp [braceScanLoop])
  | c :: cs, t, bal, inStr, esc, n, m => fun h => by
      simp only [braceScanLoop, List.cons_append] at h ⊢
      split_ifs at h ⊢ <;>
        first
          | exact h
          | exact braceScanLoop_extend cs t _ _ _ _ m h

/-- Searching for a single character finds it right past a prefix free of
    that character. -/
theorem findSubAux_skip_pre {c0 : Char} : ∀ (pre : List Char) (r : List Char)
    (i : Nat), c0 ∉ pre →
    findSubAux (pre ++ c0 :: r) [c0] i = some (i + pre.length)
  | [], r, i => fun _ => by simp [findSubAux, List.isPrefixOf]
  | p :: ps, r, i => fun h => by
      have hp : ¬(c0 = p) := fun he => h (by rw [he]; exact List.mem_cons_self p ps)
      have hpref : List.isPrefixOf [c0] (p :: (ps ++ c0 :: r)) = false := by
        simp [List.isPrefixOf, hp]
      simp only [List.cons_append, findSubAux, List.append_eq, hpref,
        Bool.false_eq_true, if_false]
      rw [findSubAux_skip_pre ps r (i + 1)
        (fun hm => h (List.mem_cons_of_mem _ hm))]
      simp only [List.length_cons]
      congr 1
      omega

/-- Finding the first opening brace past a brace-free prefix. -/
theorem pyFind_skip_pre (pre r : List Char) (h : '{' ∉ pre) :
    pyFind (pre ++ '{' :: r) ['{'] = (pre.length : Int) := by
  simp only [pyFind, findSubAux_skip_pre pre r 0 h, Nat.zero_add]

/-- Replacing one character by another is a map over the characters. -/
theorem pyReplaceAux_single (a b : Char) : ∀ (fuel : Nat) (s : List Char),
    s.length ≤ fuel →
    pyReplaceAux [a] [b] fuel s = s.map (fun c => if c = a then b else c)
  | _, [], _ => by simp [pyReplaceAux]
  | 0, c :: t, h => absurd h (by simp)
  | fuel + 1, c :: t, h => by
      have ht : t.length ≤ fuel := by simp at h; omega
      by_cases hca : a = c
      · have hpref : ([a] ≠ []) ∧ List.isPrefixOf [a] (c :: t) = true := by
          constructor
          · simp
          · simp [List.isPrefixOf, hca]
        simp only [pyReplaceAux, if_pos hpref, List.length_cons, List.length_nil,
          List.drop_succ_cons, List.drop_zero, List.map_cons]
        rw [pyReplaceAux_single a b fuel t ht, if_pos hca.symm]
        rfl
      · have hpref : ¬(([a] ≠ []) ∧ List.isPrefixOf [a] (c :: t) = true) := by
          simp [List.isPrefixOf, hca]
        simp only [pyReplaceAux, if_neg hpref, List.map_cons]
        rw [pyReplaceAux_single a b fuel t ht, if_neg (fun he => hca he.symm)]

/-- Single-character replace as a map. -/
theorem pyReplace_single (a b : Char) (s : List Char) :
    pyReplace [a] [b] s = s.map (fun c => if c = a then b else c) :=
  pyReplaceAux_single a b s.length s (Nat.le_refl _)

/-- The replaced character is gone after a single-character replace. -/
theorem not_mem_pyReplace_self {a b : Char} (hab : a ≠ b) (s : List Char) :
    a ∉ pyReplace [a] [b] s := by
  rw [pyReplace_single]
  intro hmem
  obtain ⟨x, _, hx⟩ := List.mem_map.mp hmem
  by_cases hxa : x = a
  · rw [if_pos hxa] at hx
    exact hab hx.symm
  · rw [if_neg hxa] at hx
    exact hxa hx

/-- A character neither present nor introduced stays absent across a
    single-character replace. -/
theorem not_mem_pyReplace_other {a b c : Char} (hcb : c ≠ b) {s : List Char}
    (hcs : c ∉ s) : c ∉ pyReplace [a] [b] s := by
  rw [pyReplace_single]
  intro hmem
  obtain ⟨x, hxs, hx⟩ := List.mem_map.mp hmem
  by_cases hxa : x = a
  · rw [if_pos hxa] at hx
    exact hcb hx.symm
  · rw [if_neg hxa] at hx
    exact hcs (hx ▸ hxs)

/-- Characterization of the step-formatting loop on a list of expected
    results: it always succeeds, produces one row per step, pairs row j with
    expected result i+j while that index is in range and with the empty
    string beyond. -/
theorem formatStepRows_spec : ∀ (items es : List JVal) (i : Nat),
    ∃ rows, formatStepRows items (.arr es) es.length i = some rows ∧
      rows.length = items.length ∧
      ∀ j st, items.get? j = some st →
        ∃ e, rows.get? j = some ⟨st, e⟩ ∧
          (i + j < es.length → es.get? (i + j) = some e) ∧
          (es.length ≤ i + j → e = .str [])
  | [], es, i => ⟨[], by simp [formatStepRows], rfl, fun j st hj => by simp at hj⟩
  | st0 :: rest, es, i => by
      obtain ⟨tl, htl, hlen, hidx⟩ := formatStepRows_spec rest es (i + 1)
      by_cases hi : i < es.length
      · have he0 : es.get? i = some (es.get ⟨i, hi⟩) := List.get?_eq_get hi
        refine ⟨⟨st0, es.get ⟨i, hi⟩⟩ :: tl, ?_, by simp [hlen], ?_⟩
        · simp only [formatStepRows, if_pos hi, pySubscript, he0, htl]
        · intro j st hj
          cases j with
          | zero =>
              refine ⟨es.get ⟨i, hi⟩, ?_, ?_, ?_⟩
              · simp at hj
                rw [hj]
                rfl
              · intro _
                simp
              · intro hle
                omega
          | succ j2 =>
              obtain ⟨e, he, hin, hout⟩ := hidx j2 st (by simpa using hj)
              refine ⟨e, by simpa using he, ?_, ?_⟩
              · intro hlt
                have := hin (by omega)
                rw [show i + 1 + j2 = i + (j2 + 1) from by omega] at this
                exact this
              · intro hle
                exact hout (by omega)
      · refine ⟨⟨st0, .str []⟩ :: tl, ?_, by simp [hlen], ?_⟩
        · simp only [formatStepRows, if_neg hi, htl]
        · intro j st hj
          cases j with
          | zero =>
              refine ⟨.str [], ?_, ?_, ?_⟩
              · simp at hj
                rw [hj]
                rfl
              · intro hlt
                omega
              · intro _
                rfl
          | succ j2 =>
              obtain ⟨e, he, hin, hout⟩ := hidx j2 st (by simpa using hj)
              refine ⟨e, by simpa using he, ?_, ?_⟩
              · intro hlt
                have := hin (by omega)
                rw [show i + 1 + j2 = i + (j2 + 1) from by omega] at this
                exact this
              · intro hle
                exact hout (by omega)

/-- C6: a parsed payload whose status field is the string ready and whose
    test_cases value is falsy (such as an empty list) yields the
    no-test-cases-despite-ready error on both the initial-generation
    dispatch and the additional-info dispatch, never a silent success with
    an empty list. -/
theorem C6_ready_empty_is_error (data : JVal) (raw : List Char)
    (hst : jGet data "status".toList (.str []) = .str "ready".toList)
    (hemp : jTruthy (jGet data "test_cases".toList (.arr [])) = false) :
    tcgen_process_payload data raw =
      .err "No test cases generated despite ready status.".toList ∧
    tcgen_info_process_payload data raw =
      .err "No test cases generated despite ready status.".toList := by
  constructor <;>
  · simp only [tcgen_process_payload, tcgen_info_process_payload, hst]
    rw [if_neg (by decide), if_neg (by decide), if_pos (by decide), hemp,
      if_pos (show (!false) = true from rfl)]

/-- Witness: the payload with status ready and an empty test_cases list is
    reported as the empty-ready error by both dispatches. -/
theorem C6_ready_empty_is_error_witness :
    tcgen_process_payload (.obj [("status".toList, .str "ready".toList),
        ("test_cases".toList, .arr [])]) [] =
      .err "No test cases generated despite ready status.".toList ∧
    tcgen_info_process_payload (.obj [("status".toList, .str "ready".toList),
        ("test_cases".toList, .arr [])]) [] =
      .err "No test cases generated despite ready status.".toList :=
  C6_ready_empty_is_error _ [] (by rfl) (by rfl)

/-- C7: on the regeneration-with-feedback dispatch, any parsed payload whose
    status is not the string ready is reported as the unexpected-status
    error, never as a needs-more-info round; in particular the statuses the
    initial dispatch accepts are errors here. -/
theorem C7_regen_non_ready_is_error (data : JVal) (raw : List Char)
    (h : beqStrJ (jGet data "status".toList (.str [])) "ready".toList = false) :
    tcgen_regen_process_payload data raw =
      .err ("Unexpected status: ".toList ++
        pyStrOf (jGet data "status".toList (.str [])) ++
        ". Expected ".toList ++ Char.ofNat 39 :: "ready".toList ++
        Char.ofNat 39 :: ". Raw output: ".toList ++ raw) := by
  simp only [tcgen_regen_process_payload, h, Bool.false_eq_true, if_false]

/-- Witness: a needs_more_info payload, valid for initial generation, is the
    unexpected-status error on the regeneration dispatch. -/
theorem C7_regen_non_ready_is_error_witness :
    tcgen_regen_process_payload
        (.obj [("status".toList, .str "needs_more_info".toList)]) "raw".toList =
      .err ("Unexpected status: ".toList ++
        pyStrOf (jGet (.obj [("status".toList, .str "needs_more_info".toList)])
          "status".toList (.str [])) ++
        ". Expected ".toList ++ Char.ofNat 39 :: "ready".toList ++
        Char.ofNat 39 :: ". Raw output: ".toList ++ "raw".toList) :=
  C7_regen_non_ready_is_error _ _ (by rfl)

/-- C10 (amended): the generated-code JSON parser is total and returns a
    parsed value exactly when the Python membership test for the four
    required keys passes on it; that value need not be a dictionary, since
    the membership test also passes on lists and strings containing the four
    keys. -/
theorem C10_parse_total_and_key_checked (raw : List Char) :
    parse_code_json raw = none ∨
    ∃ parsed, parse_code_json raw = some parsed ∧
      allKeysIn requiredCodeKeys parsed = some true := by
  simp only [parse_code_json]
  split
  · rename_i parsed h1
    split
    · rename_i h2
      exact .inr ⟨parsed, rfl, h2⟩
    · exact .inl rfl
  · split
    · rename_i parsed h2
      split
      · rename_i h3
        exact .inr ⟨parsed, rfl, h3⟩
      · exact .inl rfl
    · exact .inl rfl

/-- C10 counterexample: the parser returns this parsed value even though it
    is a list, not a dictionary, because the Python membership test passes
    on a list of the four key names. -/
theorem C10_counterexample_list_accepted :
    parse_code_json c10input =
      some (.arr [.str "locators".toList, .str "reusable_functions".toList,
        .str "test_functions".toList, .str "cursor_prompt".toList]) := by
  rfl

/-- Reading back the just-written path returns the written contents. -/
theorem fsLookup_fsWrite (fs : FileSys) (p c : List Char) :
    fsLookup (fsWrite fs p c) p = some c := by
  simp [fsWrite, fsLookup]

/-- C8: writing a serializable value to either cache and reading the same
    key back returns that value, and a corrupted on-disk entry (one the JSON
    parser rejects) reads back as a miss rather than an error, for both the
    test-case cache and the code cache. -/
theorem C8_cache_round_trip_and_corrupt_miss (fs : FileSys)
    (ticket_id test_case_id test_case_title now corrupt : List Char)
    (tc_data code_data formatted : JVal) (w1 w2 : Nat)
    (h1 : wfJF w1 tc_data = true)
    (h2 : wfJF w2 (code_cache_entry test_case_id test_case_title ticket_id now
        code_data formatted) = true)
    (hc : jsonLoads corrupt = none) :
    load_cached_test_cases ticket_id
        (save_test_cases_to_cache ticket_id tc_data fs) = some tc_data ∧
    load_cached_code test_case_id (some ticket_id)
        (save_code_to_cache test_case_id test_case_title ticket_id now code_data
          formatted fs) =
      some (code_cache_entry test_case_id test_case_title ticket_id now
        code_data formatted) ∧
    load_cached_test_cases ticket_id
        (fsWrite fs (get_cache_file_path ticket_id) corrupt) = none ∧
    load_cached_code test_case_id (some ticket_id)
        (fsWrite fs (get_code_cache_file_path test_case_id (some ticket_id))
          corrupt) = none := by
  refine ⟨?_, ?_, ?_, ?_⟩
  · simp only [load_cached_test_cases, save_test_cases_to_cache, fsLookup_fsWrite]
    exact jsonLoads_jsonDumps w1 tc_data h1
  · simp only [load_cached_code, save_code_to_cache, fsLookup_fsWrite]
    exact jsonLoads_jsonDumps w2 _ h2
  · simp only [load_cached_test_cases, fsLookup_fsWrite, hc]
  · simp only [load_cached_code, fsLookup_fsWrite, hc]

/-- Witness: a concrete ready payload round-trips through the test-case
    cache, a concrete entry round-trips through the code cache, and the
    contents not json read back as a miss from both. -/
theorem C8_cache_round_trip_witness :
    load_cached_test_cases "PAN-7".toList
        (save_test_cases_to_cache "PAN-7".toList
          (.obj [("status".toList, .str "ready".toList),
                 ("test_cases".toList, .arr [.str "tc".toList])]) []) =
      some (.obj [("status".toList, .str "ready".toList),
                  ("test_cases".toList, .arr [.str "tc".toList])]) ∧
    load_cached_code "TC-01".toList (some "PAN-7".toList)
        (save_code_to_cache "TC-01".toList "Login".toList "PAN-7".toList
          "2024-01-01".toList (.str "code".toList) (.str "fmt".toList) []) =
      some (code_cache_entry "TC-01".toList "Login".toList "PAN-7".toList
        "2024-01-01".toList (.str "code".toList) (.str "fmt".toList)) ∧
    load_cached_test_cases "PAN-7".toList
        ((fsWrite [] (get_cache_file_path "PAN-7".toList) "not json".toList)) = none ∧
    load_cached_code "TC-01".toList (some "PAN-7".toList)
        ((fsWrite [] (get_code_cache_file_path "TC-01".toList
          (some "PAN-7".toList)) "not json".toList)) = none :=
  C8_cache_round_trip_and_corrupt_miss [] "PAN-7".toList "TC-01".toList
    "Login".toList "2024-01-01".toList "not json".toList
    (.obj [("status".toList, .str "ready".toList),
           ("test_cases".toList, .arr [.str "tc".toList])])
    (.str "code".toList) (.str "fmt".toList) 10 10 (by rfl) (by rfl) (by rfl)

/-- C9 counterexample: a space in a ticket id survives into the test-case
    cache file name, so the sanitization does not replace space characters
    there. -/
theorem C9_counterexample_space_survives :
    ' ' ∈ get_cache_file_path "PAN 1".toList := by
  decide

/-- C9 (amended): cache keys are sanitized by replacing the two path
    separators with underscores before use as a file name, for the ticket id
    of both caches; only the test-case id part of the code cache also has
    spaces replaced. -/
theorem C9_separator_sanitization (ticket_id test_case_id : List Char)
    (hne : ticket_id ≠ []) :
    (∃ stem, get_cache_file_path ticket_id =
        "testcaseGenerated/".toList ++ stem ++ "_test_case.json".toList ∧
        '/' ∉ stem ∧ '\\' ∉ stem) ∧
    (∃ tstem cstem,
        get_code_cache_file_path test_case_id (some ticket_id) =
          "codeGenerated/".toList ++ tstem ++ ['_'] ++ cstem ++
            "_code.json".toList ∧
        '/' ∉ tstem ∧ '\\' ∉ tstem ∧
        '/' ∉ cstem ∧ '\\' ∉ cstem ∧ ' ' ∉ cstem) := by
  have hf : ticket_id.isEmpty = false := by
    cases ticket_id with
    | nil => exact absurd rfl hne
    | cons a t => rfl
  constructor
  · refine ⟨pyReplace ['\\'] ['_'] (pyReplace ['/'] ['_'] ticket_id), rfl, ?_, ?_⟩
    · exact not_mem_pyReplace_other (by decide)
        (not_mem_pyReplace_self (by decide) _)
    · exact not_mem_pyReplace_self (by decide) _
  · refine ⟨pyReplace ['\\'] ['_'] (pyReplace ['/'] ['_'] ticket_id),
      pyReplace [' '] ['_'] (pyReplace ['\\'] ['_']
        (pyReplace ['/'] ['_'] test_case_id)), ?_, ?_, ?_, ?_, ?_, ?_⟩
    · simp only [get_code_cache_file_path]
      rw [if_neg (by simp [hf])]
    · exact not_mem_pyReplace_other (by decide)
        (not_mem_pyReplace_self (by decide) _)
    · exact not_mem_pyReplace_self (by decide) _
    · exact not_mem_pyReplace_other (by decide)
        (not_mem_pyReplace_other (by decide)
          (not_mem_pyReplace_self (by decide) _))
    · exact not_mem_pyReplace_other (by decide)
        (not_mem_pyReplace_self (by decide) _)
    · exact not_mem_pyReplace_self (by decide) _

/-- Witness: with a separator and a space in each id, both derived file
    names decompose into the fixed pieces around separator-free stems, and
    the code-side test-case stem is also space-free. -/
theorem C9_separator_sanitization_witness :
    (∃ stem, get_cache_file_path "PAN/2 x".toList =
        "testcaseGenerated/".toList ++ stem ++ "_test_case.json".toList ∧
        '/' ∉ stem ∧ '\\' ∉ stem) ∧
    (∃ tstem cstem,
        get_code_cache_file_path "TC 1/a".toList (some "PAN/2 x".toList) =
          "codeGenerated/".toList ++ tstem ++ ['_'] ++ cstem ++
            "_code.json".toList ∧
        '/' ∉ tstem ∧ '\\' ∉ tstem ∧
        '/' ∉ cstem ∧ '\\' ∉ cstem ∧ ' ' ∉ cstem) :=
  C9_separator_sanitization "PAN/2 x".toList "TC 1/a".toList (by decide)

/-- C5: for a test case whose steps list is longer than its
    expected-results list, the normalizer succeeds with exactly one row per
    step; row j carries expected result j while that index is in range and
    the empty string from there on, and the padding is not an error. -/
theorem C5_steps_padded_with_empty (kvs : List (List Char × JVal))
    (items es : List JVal)
    (hs : dictGet kvs "steps".toList (.arr []) = .arr items)
    (he : dictGet kvs "expected_results".toList (.arr []) = .arr es)
    (hne : items ≠ []) :
    ∃ rows, formatTestCase (.obj kvs) =
        some ⟨dictGet kvs "id".toList (.str []),
          dictGet kvs "title".toList (.str "Untitled".toList), rows⟩ ∧
      rows.length = items.length ∧
      ∀ j st, items.get? j = some st →
        ∃ e, rows.get? j = some ⟨st, e⟩ ∧
          (j < es.length → es.get? j = some e) ∧
          (es.length ≤ j → e = .str []) := by
  obtain ⟨rows, hrows, hlen, hidx⟩ := formatStepRows_spec items es 0
  have hmain : formatTestCase (.obj kvs) =
      some ⟨dictGet kvs "id".toList (.str []),
        dictGet kvs "title".toList (.str "Untitled".toList), rows⟩ := by
    cases items with
    | nil => exact absurd rfl hne
    | cons it0 its =>
        simp only [formatTestCase, hs, he, pyIterate, pyLen, hrows]
  exact ⟨rows, hmain, hlen, fun j st hj => by
    obtain ⟨e, he1, he2, he3⟩ := hidx j st hj
    exact ⟨e, he1, fun hlt => by simpa using he2 (by omega),
      fun hle => he3 (by omega)⟩⟩

/-- Witness: three steps against one expected result format as three rows,
    the first carrying the expected result and the last two the empty
    string. -/
theorem C5_steps_padded_with_empty_witness :
    ∃ rows, formatTestCase (.obj [("id".toList, .str "TC-1".toList),
        ("title".toList, .str "Login".toList),
        ("steps".toList, .arr [.str "a".toList, .str "b".toList, .str "c".toList]),
        ("expected_results".toList, .arr [.str "ok".toList])]) =
        some ⟨dictGet [("id".toList, .str "TC-1".toList),
            ("title".toList, .str "Login".toList),
            ("steps".toList, .arr [.str "a".toList, .str "b".toList, .str "c".toList]),
            ("expected_results".toList, .arr [.str "ok".toList])] "id".toList (.str []),
          dictGet [("id".toList, .str "TC-1".toList),
            ("title".toList, .str "Login".toList),
            ("steps".toList, .arr [.str "a".toList, .str "b".toList, .str "c".toList]),
            ("expected_results".toList, .arr [.str "ok".toList])] "title".toList
            (.str "Untitled".toList), rows⟩ ∧
      rows.length = ([JVal.str "a".toList, .str "b".toList, .str "c".toList] : List JVal).length ∧
      ∀ j st, ([JVal.str "a".toList, .str "b".toList, .str "c".toList] : List JVal).get? j = some st →
        ∃ e, rows.get? j = some ⟨st, e⟩ ∧
          (j < ([JVal.str "ok".toList] : List JVal).length →
            ([JVal.str "ok".toList] : List JVal).get? j = some e) ∧
          (([JVal.str "ok".toList] : List JVal).length ≤ j → e = .str []) :=
  C5_steps_padded_with_empty _ [.str "a".toList, .str "b".toList, .str "c".toList]
    [.str "ok".toList] (by rfl) (by rfl) (by exact List.cons_ne_nil _ _)

/-- C3: for input text consisting of a brace-free preamble, a single
    brace-balanced JSON object candidate and any trailing text, the
    brace-counting extractor returns exactly the candidate, character for
    character, and the shared parse step parses exactly it; whenever no
    candidate is found (no opening brace, or the counter never returns to
    zero), the parse step falls back to parsing the entire input. -/
theorem C3_balanced_span_extraction (pre obj post : List Char)
    (hpre : '{' ∉ pre) (hhd : obj.head? = some '{')
    (hbal : braceScanLoop obj 0 false false 0 = some obj.length) :
    tcgen_extract_candidate (pre ++ obj ++ post) = some obj ∧
    tcgen_parse_output (pre ++ obj ++ post) = jsonLoads obj ∧
    (∀ s, tcgen_extract_candidate s = none →
      tcgen_parse_output s = jsonLoads s) := by
  obtain ⟨o, rfl⟩ : ∃ o, obj = '{' :: o := by
    cases obj with
    | nil => exact absurd hhd (by simp)
    | cons c t =>
        refine ⟨t, ?_⟩
        have : c = '{' := by simpa using hhd
        rw [this]
  have hassoc : pre ++ ('{' :: o) ++ post = pre ++ '{' :: (o ++ post) := by simp
  have hcand : tcgen_extract_candidate (pre ++ ('{' :: o) ++ post) =
      some ('{' :: o) := by
    rw [hassoc]
    simp only [tcgen_extract_candidate, pyFind_skip_pre pre (o ++ post) hpre]
    rw [if_pos (by omega : ((pre.length : Int)) ≠ -1),
      show ((pre.length : Int)).toNat = pre.length from by omega,
      List.drop_left,
      show '{' :: (o ++ post) = ('{' :: o) ++ post from rfl,
      braceScanLoop_extend _ post _ _ _ _ _ hbal]
    show some (List.take ('{' :: o).length (('{' :: o) ++ post)) = some ('{' :: o)
    rw [List.take_left]
  refine ⟨hcand, ?_, ?_⟩
  · simp only [tcgen_parse_output, hcand]
  · intro s hs
    simp only [tcgen_parse_output, hs]

/-- Witness: a fenced object inside prose is extracted exactly, and the
    fallback equation holds for an input with no opening brace. -/
theorem C3_balanced_span_extraction_witness :
    tcgen_extract_candidate ("Result:\n```json\n".toList ++
        "\x7b\"status\": \"ready\", \"note\": \"ok\"\x7d".toList ++
        "\n```".toList) =
      some "\x7b\"status\": \"ready\", \"note\": \"ok\"\x7d".toList ∧
    tcgen_parse_output ("Result:\n```json\n".toList ++
        "\x7b\"status\": \"ready\", \"note\": \"ok\"\x7d".toList ++
        "\n```".toList) =
      jsonLoads "\x7b\"status\": \"ready\", \"note\": \"ok\"\x7d".toList ∧
    (∀ s, tcgen_extract_candidate s = none →
      tcgen_parse_output s = jsonLoads s) :=
  C3_balanced_span_extraction "Result:\n```json\n".toList
    "\x7b\"status\": \"ready\", \"note\": \"ok\"\x7d".toList "\n```".toList
    (by decide) (by rfl) (by rfl)

/-- C4 (amended): on primary-parse failure the code parser retries exactly
    once, after rewriting the two literal patterns comma-newline-brace and
    comma-newline-bracket; when the rewritten candidate parses and carries
    the required keys, the retry succeeds. -/
theorem C4_comma_newline_retry (raw : List Char) (parsed : JVal)
    (h1 : jsonLoads (extract_code_json_str raw) = none)
    (h2 : jsonLoads (pyReplace (',' :: '\n' :: [']']) ('\n' :: [']'])
        (pyReplace (',' :: '\n' :: ['}']) ('\n' :: ['}'])
          (extract_code_json_str raw))) = some parsed)
    (h3 : allKeysIn requiredCodeKeys parsed = some true) :
    parse_code_json raw = some parsed := by
  simp only [parse_code_json, h1, h2, h3]

/-- Witness: a payload with every required key and a trailing comma right
    before a newline and the closing brace fails the primary parse and
    parses on the retry. -/
theorem C4_comma_newline_retry_witness :
    parse_code_json ("\x7b\"locators\": \"a\",\n\"reusable_functions\": \"b\",\n\"test_functions\": \"c\",\n\"cursor_prompt\": \"d\",\n\x7d".toList) =
      some (.obj [("locators".toList, .str "a".toList),
        ("reusable_functions".toList, .str "b".toList),
        ("test_functions".toList, .str "c".toList),
        ("cursor_prompt".toList, .str "d".toList)]) :=
  C4_comma_newline_retry _ _ (by rfl) (by rfl) (by rfl)

/-- C4 counterexample: a trailing comma directly before the closing brace,
    with no newline between them, is not recovered: the retry rewrite only
    strips the two literal newline patterns, so the parse still fails. -/
theorem C4_counterexample_comma_without_newline :
    parse_code_json ("\x7b\"locators\": \"a\", \"reusable_functions\": \"b\", \"test_functions\": \"c\", \"cursor_prompt\": \"d\",\x7d".toList) = none := by
  rfl

/-- C2 counterexample: a click line using the text accessor produces no
    action at all — the selector resolution knows no text accessor, so the
    line is dropped instead of yielding a text-selector click. -/
theorem C2_counterexample_text_accessor_ignored :
    lineActions (pyStrip "page.get_by_text(\"Submit\").click()".toList) = [] := by
  rfl

/-- C2 (amended): a click line resolves its selector by checking the
    accessors in the priority order test-id, then role, then generic
    locator, taking the extracted quoted argument of the first present
    accessor and producing no action when none is present; a fill line
    checks only test-id then generic locator, with the first quoted fill
    argument as the value.  No text accessor is consulted on either path. -/
theorem C2_click_fill_accessor_priority (line arg : List Char)
    (hng : pyIn "page.goto(".toList line = false) :
    (pyIn ".click()".toList line = true →
      ((pyIn "get_by_test_id(".toList line = true →
          accessorArg line "get_by_test_id".toList = some arg →
          lineActions line = [{ typ := "click".toList, selector := .dictSel "testid".toList arg [] }]) ∧
       (pyIn "get_by_test_id(".toList line = false →
          pyIn "get_by_role(".toList line = true →
          accessorArg line "get_by_role".toList = some arg →
          lineActions line = [{ typ := "click".toList, selector := .dictSel "role".toList arg [] }]) ∧
       (pyIn "get_by_test_id(".toList line = false →
          pyIn "get_by_role(".toList line = false →
          pyIn "locator(".toList line = true →
          accessorArg line "locator".toList = some arg →
          lineActions line = [{ typ := "click".toList, selector := .dictSel "css".toList arg [] }]) ∧
       (pyIn "get_by_test_id(".toList line = false →
          pyIn "get_by_role(".toList line = false →
          pyIn "locator(".toList line = false →
          lineActions line = []))) ∧
    (pyIn ".click()".toList line = false →
      pyIn ".fill(".toList line = true →
      ((pyIn "get_by_test_id(".toList line = true →
          accessorArg line "get_by_test_id".toList = some arg →
          lineActions line = [{ typ := "fill".toList, selector := .dictSel "testid".toList arg [], value := fillValue line }]) ∧
       (pyIn "get_by_test_id(".toList line = false →
          pyIn "locator(".toList line = true →
          accessorArg line "locator".toList = some arg →
          lineActions line = [{ typ := "fill".toList, selector := .dictSel "css".toList arg [], value := fillValue line }]))) := by
  refine ⟨fun hc => ⟨?_, ?_, ?_, ?_⟩, fun hnc hf => ⟨?_, ?_⟩⟩
  · intro h1 ha
    simp only [lineActions, clickSelectorInfo, hng, hc, h1, ha]
    simp
  · intro h1 h2 ha
    simp only [lineActions, clickSelectorInfo, hng, hc, h1, h2, ha]
    simp
  · intro h1 h2 h3 ha
    simp only [lineActions, clickSelectorInfo, hng, hc, h1, h2, h3, ha]
    simp
  · intro h1 h2 h3
    simp only [lineActions, clickSelectorInfo, hng, hc, h1, h2, h3]
    simp
  · intro h1 ha
    simp only [lineActions, fillSelectorInfo, hng, hnc, hf, h1, ha]
    simp
  · intro h1 h2 ha
    simp only [lineActions, fillSelectorInfo, hng, hnc, hf, h1, h2, ha]
    simp

/-- Witness: a role-accessor click line, with the role argument extracted,
    satisfies the amended priority characterization. -/
theorem C2_click_fill_accessor_priority_witness :
    (pyIn ".click()".toList "page.get_by_role(\"button\").click()".toList = true →
      ((pyIn "get_by_test_id(".toList "page.get_by_role(\"button\").click()".toList = true →
          accessorArg "page.get_by_role(\"button\").click()".toList "get_by_test_id".toList = some "button".toList →
          lineActions "page.get_by_role(\"button\").click()".toList = [{ typ := "click".toList, selector := .dictSel "testid".toList "button".toList [] }]) ∧
       (pyIn "get_by_test_id(".toList "page.get_by_role(\"button\").click()".toList = false →
          pyIn "get_by_role(".toList "page.get_by_role(\"button\").click()".toList = true →
          accessorArg "page.get_by_role(\"button\").click()".toList "get_by_role".toList = some "button".toList →
          lineActions "page.get_by_role(\"button\").click()".toList = [{ typ := "click".toList, selector := .dictSel "role".toList "button".toList [] }]) ∧
       (pyIn "get_by_test_id(".toList "page.get_by_role(\"button\").click()".toList = false →
          pyIn "get_by_role(".toList "page.get_by_role(\"button\").click()".toList = false →
          pyIn "locator(".toList "page.get_by_role(\"button\").click()".toList = true →
          accessorArg "page.get_by_role(\"button\").click()".toList "locator".toList = some "button".toList →
          lineActions "page.get_by_role(\"button\").click()".toList = [{ typ := "click".toList, selector := .dictSel "css".toList "button".toList [] }]) ∧
       (pyIn "get_by_test_id(".toList "page.get_by_role(\"button\").click()".toList = false →
          pyIn "get_by_role(".toList "page.get_by_role(\"button\").click()".toList = false →
          pyIn "locator(".toList "page.get_by_role(\"button\").click()".toList = false →
          lineActions "page.get_by_role(\"button\").click()".toList = []))) ∧
    (pyIn ".click()".toList "page.get_by_role(\"button\").click()".toList = false →
      pyIn ".fill(".toList "page.get_by_role(\"button\").click()".toList = true →
      ((pyIn "get_by_test_id(".toList "page.get_by_role(\"button\").click()".toList = true →
          accessorArg "page.get_by_role(\"button\").click()".toList "get_by_test_id".toList = some "button".toList →
          lineActions "page.get_by_role(\"button\").click()".toList = [{ typ := "fill".toList, selector := .dictSel "testid".toList "button".toList [], value := fillValue "page.get_by_role(\"button\").click()".toList }]) ∧
       (pyIn "get_by_test_id(".toList "page.get_by_role(\"button\").click()".toList = false →
          pyIn "locator(".toList "page.get_by_role(\"button\").click()".toList = true →
          accessorArg "page.get_by_role(\"button\").click()".toList "locator".toList = some "button".toList →
          lineActions "page.get_by_role(\"button\").click()".toList = [{ typ := "fill".toList, selector := .dictSel "css".toList "button".toList [], value := fillValue "page.get_by_role(\"button\").click()".toList }]))) :=
  C2_click_fill_accessor_priority "page.get_by_role(\"button\").click()".toList
    "button".toList (by rfl)

/-- C1: the extractor yields exactly the three claimed actions for the
    claimed input, but converting that very list to human-readable steps
    raises AttributeError — the converter calls startswith on the selector
    dictionaries the extractor emits — so the claimed step list is never
    produced; and locator generation emits a declaration only for the
    test-id selector, not one per distinct selector, because the css
    selector is deduplicated but emits nothing. -/
theorem C1_conversion_crashes_on_extracted_actions :
    extract_actions_from_code c1code "https://x.test/login".toList = c1actions ∧
    convert_actions_to_test_steps c1actions =
      .error "AttributeError: dict object has no attribute startswith".toList ∧
    (extract_locators_from_actions c1actions).1 =
      "class Locators:\n    submit_btn = page.get_by_test_id(\"submit-btn\")".toList :=
  ⟨rfl, rfl, rfl⟩
